import Mathlib

/- A shallow embedding of the ShipGL model-packing subsystem
   (src/src/Scene/Model.js together with the buffer wrapper in
   src/src/Buffers/Buffer.js): the size and write passes of
   ShipGL.Model.prototype._initBuffers, the normal-matrix pass of
   _initNormalMatrices, and the extents scan of _computeExtents.

   JavaScript numbers are modelled as exact rationals.  The 4x4
   matrix and 3-vector operations come from the external gl-matrix
   library (not part of this repository); they are modelled
   abstractly with the meaning the spec gives them: a column-major
   4x4 matrix acting on homogeneous points with w = 1, matrix
   inverse computed as adjugate over determinant with a zero
   determinant guard returning null, transpose, and Euclidean
   distance.  WebGL buffers are modelled as total functions from
   element index to value together with their allocated capacity;
   bufferSubData rejects a write whose range exceeds the capacity. -/

namespace ShipGL

/-- Column-major 4x4 gl-matrix matrix, modelled abstractly; entry M i j is
row i, column j (flat array slot j*4+i of the JavaScript representation). -/
abbrev Mat4 := Matrix (Fin 4) (Fin 4) ℚ

/-- A gl-matrix 3-vector. -/
abbrev Vec3 := Fin 3 → ℚ

instance {ε α : Type} [DecidableEq ε] [DecidableEq α] : DecidableEq (Except ε α) :=
  fun a b =>
    match a, b with
    | .error x, .error y =>
      if h : x = y then .isTrue (by rw [h]) else .isFalse (fun hc => h (Except.error.inj hc))
    | .error _, .ok _ => .isFalse (fun hc => Except.noConfusion hc)
    | .ok _, .error _ => .isFalse (fun hc => Except.noConfusion hc)
    | .ok x, .ok y =>
      if h : x = y then .isTrue (by rw [h]) else .isFalse (fun hc => h (Except.ok.inj hc))

/-- A mesh of the parsed JSON scene description.  Fields that the
JavaScript code may find undefined on the parsed object are Options. -/
structure Mesh where
  vertexPositions : Option (List ℚ)
  vertexNormals : Option (List ℚ)
  vertexTexCoordinates : Option (List (List ℚ))
  indices : Option (List ℕ)
  materialIndex : ℕ
deriving DecidableEq

/-- A material of the scene description (only the field _initBuffers reads). -/
structure Material where
  diffuseTexture : List String
deriving DecidableEq

/-- A node of the scene description. -/
structure Node where
  modelMatrix : Mat4
  meshIndices : List ℕ

/-- The parsed JSON scene description (this.json). -/
structure Scene where
  meshes : List Mesh
  materials : List Material
  nodes : List Node

/-- Default mesh used to spell out List.getD defaults in statements. -/
def dMesh : Mesh := ⟨none, none, none, none, 0⟩

/-- Default material used to spell out List.getD defaults in statements. -/
def dMat : Material := ⟨[]⟩

/-- The truthiness test of the source line 187-189: vertexTexCoordinates is
defined, its entry 0 is defined, and that entry has positive length. -/
def texCond (m : Mesh) : Bool :=
  match m.vertexTexCoordinates with
  | none => false
  | some vtc =>
    match vtc with
    | [] => false
    | c0 :: _ => decide (0 < c0.length)

/-- Element count of texture-coordinate channel 0 (0 when absent). -/
def texLen (m : Mesh) : ℕ := ((m.vertexTexCoordinates.getD []).headD []).length

/-- Element count of the position array (0 when absent). -/
def posLen (m : Mesh) : ℕ := (m.vertexPositions.getD []).length

/-- Element count of the normal array (0 when absent). -/
def nrmLen (m : Mesh) : ℕ := (m.vertexNormals.getD []).length

/-- Element count of the index array (0 when absent or empty). -/
def idxLen (m : Mesh) : ℕ := (m.indices.getD []).length

/-- The hasTexture flag _initBuffers computes for a mesh: the texcoord
truthiness test and a non-empty diffuseTexture on the referenced material. -/
def meshHasTex (materials : List Material) (m : Mesh) : Bool :=
  texCond m && decide (0 < ((materials.getD m.materialIndex dMat).diffuseTexture).length)

/-- The hasIndices flag _initBuffers computes for a mesh. -/
def meshHasIdx (m : Mesh) : Bool :=
  match m.indices with
  | some idxs => decide (0 < idxs.length)
  | none => false

/-- The stride _initBuffers computes for a mesh: 3 + 3 elements for the
position and normal, plus 2 when the mesh is textured. -/
def meshStride (materials : List Material) (m : Mesh) : ℕ :=
  if meshHasTex materials m then 8 else 6

/-- Number of vertices of a mesh: position triples. -/
def vertCount (m : Mesh) : ℕ := posLen m / 3

/-- Elements a mesh contributes to the vertex-buffer size in the size pass. -/
def vboContrib (materials : List Material) (m : Mesh) : ℕ :=
  posLen m + nrmLen m + (if meshHasTex materials m then texLen m else 0)

/-- Per-mesh metadata attached by the size pass of _initBuffers. -/
structure MeshMeta where
  hasTexture : Bool
  stride : ℕ
  hasIndices : Bool
  indicesOffset : Option ℕ
  indicesByteOffset : Option ℕ
deriving DecidableEq

instance : Inhabited MeshMeta := ⟨⟨false, 0, false, none, none⟩⟩

/-- The indices branch of the size pass (source lines 203-210): a defined,
non-empty index array records the running index-buffer size as element
offset and twice it as byte offset (indices are 16-bit). -/
def sizeIndices (m : Mesh) (hasTex : Bool) (stride : ℕ) (iboSize : ℕ) : MeshMeta × ℕ :=
  match m.indices with
  | some idxs =>
    if 0 < idxs.length then
      (⟨hasTex, stride, true, some iboSize, some (2 * iboSize)⟩, iboSize + idxs.length)
    else
      (⟨hasTex, stride, false, none, none⟩, iboSize)
  | none => (⟨hasTex, stride, false, none, none⟩, iboSize)

/-- One iteration of the size loop of _initBuffers (source lines 175-211).
Reading .length of an undefined array or a property of an undefined
material is the JavaScript TypeError, modelled as an error result.  The
strides 6 and 8 are the source's 3 + 3 and 3 + 3 + 2. -/
def sizeMesh (materials : List Material) (m : Mesh) (vboSize iboSize : ℕ) :
    Except String (MeshMeta × ℕ × ℕ) :=
  match m.vertexPositions with
  | none => .error "TypeError: cannot read length of undefined vertexPositions"
  | some pos =>
    match m.vertexNormals with
    | none => .error "TypeError: cannot read length of undefined vertexNormals"
    | some nrm =>
      let v1 := vboSize + pos.length + nrm.length
      if texCond m then
        match materials.get? m.materialIndex with
        | none => .error "TypeError: cannot read diffuseTexture of undefined"
        | some mat =>
          if 0 < mat.diffuseTexture.length then
            let r := sizeIndices m true 8 iboSize
            .ok (r.1, v1 + texLen m, r.2)
          else
            let r := sizeIndices m false 6 iboSize
            .ok (r.1, v1, r.2)
      else
        let r := sizeIndices m false 6 iboSize
        .ok (r.1, v1, r.2)

/-- The size loop of _initBuffers over all meshes in declaration order,
threading the running vertex- and index-buffer sizes. -/
def sizePass (materials : List Material) : List Mesh → ℕ → ℕ →
    Except String (List MeshMeta × ℕ × ℕ)
  | [], v, i => .ok ([], v, i)
  | m :: ms, v, i =>
    match sizeMesh materials m v i with
    | .error e => .error e
    | .ok (meta, v', i') =>
      match sizePass materials ms v' i' with
      | .error e => .error e
      | .ok (metas, vT, iT) => .ok (meta :: metas, vT, iT)

/-- The metadata the size pass produces for a mesh when the running
index-buffer size before it is ioff (lemma vocabulary). -/
def metaAt (materials : List Material) (m : Mesh) (ioff : ℕ) : MeshMeta :=
  ⟨meshHasTex materials m, meshStride materials m, meshHasIdx m,
   if meshHasIdx m then some ioff else none,
   if meshHasIdx m then some (2 * ioff) else none⟩

/-- A mesh the size pass accepts: both required arrays are defined, and the
material reference resolves whenever the texcoord test passes. -/
def MeshPresent (materials : List Material) (m : Mesh) : Prop :=
  m.vertexPositions.isSome = true ∧ m.vertexNormals.isSome = true ∧
    (texCond m = true → m.materialIndex < materials.length)

/-- A well-formed mesh: additionally the normal array has the length of the
position array, the position array is a sequence of triples, and a textured
mesh's texcoord channel 0 holds two elements per vertex. -/
def MeshWF (materials : List Material) (m : Mesh) : Prop :=
  MeshPresent materials m ∧ nrmLen m = posLen m ∧ 3 ∣ posLen m ∧
    (meshHasTex materials m = true → 3 * texLen m = 2 * posLen m)

/-- A scene the size pass accepts. -/
def ScenePresent (s : Scene) : Prop :=
  ∀ m ∈ s.meshes, MeshPresent s.materials m

/-- A well-formed scene description. -/
def SceneWF (s : Scene) : Prop :=
  ∀ m ∈ s.meshes, MeshWF s.materials m

instance (materials : List Material) (m : Mesh) : Decidable (MeshPresent materials m) := by
  unfold MeshPresent; infer_instance

instance (materials : List Material) (m : Mesh) : Decidable (MeshWF materials m) := by
  unfold MeshWF; infer_instance

instance (s : Scene) : Decidable (ScenePresent s) := by
  unfold ScenePresent; infer_instance

instance (s : Scene) : Decidable (SceneWF s) := by
  unfold SceneWF; infer_instance

/-- The model of ShipGL.Buffer.write backed by WebGL bufferSubData: the
array is copied into the buffer starting at the element index, and a write
whose range exceeds the allocated capacity is rejected whole. -/
def bufWrite (cap : ℕ) (buf : ℕ → ℚ) (arr : List ℚ) (idx : ℕ) : ℕ → ℚ :=
  if idx + arr.length ≤ cap then
    fun i => if idx ≤ i ∧ i < idx + arr.length then arr.getD (i - idx) 0 else buf i
  else buf

/-- The model of the index-buffer write: values are coerced to unsigned
16-bit integers by the Uint16Array construction. -/
def iboWrite (cap : ℕ) (buf : ℕ → ℕ) (arr : List ℕ) (idx : ℕ) : ℕ → ℕ :=
  if idx + arr.length ≤ cap then
    fun i => if idx ≤ i ∧ i < idx + arr.length then (arr.getD (i - idx) 0) % 65536 else buf i
  else buf

/-- Result of the inner vertex loop: the updated vertex buffer, the final
write cursor, and the trace of vbo.write calls as (start index, number of
elements written) pairs. -/
structure VertsWrite where
  buf : ℕ → ℚ
  w : ℕ
  events : List (ℕ × ℕ)

/-- The inner vertex loop of the write pass (source lines 233-247): for each
position triple, write the three positions at the cursor, the three normals
at cursor+3, and for a textured mesh the two texcoords at cursor+6, then
advance the cursor by the stride.  The cursor advances by the fixed 3/3/2
even when a slice near the end of an array is short, exactly as the source's
writeIdx does. -/
def writeVerts (cap : ℕ) (hasTex : Bool) :
    (ℕ → ℚ) → ℕ → List ℚ → List ℚ → List ℚ → VertsWrite
  | buf, w, [], _nrm, _tex => ⟨buf, w, []⟩
  | buf, w, p :: ps, nrm, tex =>
    let pos := p :: ps
    let b1 := bufWrite cap buf (pos.take 3) w
    let b2 := bufWrite cap b1 (nrm.take 3) (w + 3)
    if hasTex then
      let b3 := bufWrite cap b2 (tex.take 2) (w + 6)
      let r := writeVerts cap hasTex b3 (w + 8) (pos.drop 3) (nrm.drop 3) (tex.drop 2)
      ⟨r.buf, r.w,
       (w, (pos.take 3).length) :: (w + 3, (nrm.take 3).length) ::
         (w + 6, (tex.take 2).length) :: r.events⟩
    else
      let r := writeVerts cap hasTex b2 (w + 6) (pos.drop 3) (nrm.drop 3) tex
      ⟨r.buf, r.w, (w, (pos.take 3).length) :: (w + 3, (nrm.take 3).length) :: r.events⟩
termination_by _ _ pos _ _ => pos.length
decreasing_by all_goals simp [List.length_drop]; omega

/-- The per-mesh fields the write pass attaches (source lines 225-231),
together with the fields already attached by the size pass.  A field the
JavaScript code leaves unset is none. -/
structure MeshLayout where
  hasTexture : Bool
  stride : ℕ
  hasIndices : Bool
  indicesOffset : Option ℕ
  indicesByteOffset : Option ℕ
  positionsOffset : ℕ
  normalsOffset : ℕ
  texCoordsOffset : Option ℕ
deriving DecidableEq

instance : Inhabited MeshLayout := ⟨⟨false, 0, false, none, none, 0, 0, none⟩⟩

/-- Default layout used to spell out List.getD defaults in statements. -/
def dLayout : MeshLayout := ⟨false, 0, false, none, none, 0, 0, none⟩

/-- Accumulated state of the write pass over the whole mesh list. -/
structure WriteState where
  vbuf : ℕ → ℚ
  ibuf : ℕ → ℕ
  writeIdx : ℕ
  layouts : List MeshLayout
  vboEvents : List (List (ℕ × ℕ))

/-- The write loop of _initBuffers (source lines 220-253) over the meshes
paired with their size-pass metadata: record the offsets, interleave the
vertex data, and copy the whole index array of an indexed mesh at its
precomputed element offset. -/
def writePass (cap icap : ℕ) : List (Mesh × MeshMeta) → (ℕ → ℚ) → (ℕ → ℕ) → ℕ → WriteState
  | [], vbuf, ibuf, w => ⟨vbuf, ibuf, w, [], []⟩
  | (m, meta) :: rest, vbuf, ibuf, w =>
    let layout : MeshLayout :=
      ⟨meta.hasTexture, meta.stride, meta.hasIndices, meta.indicesOffset,
       meta.indicesByteOffset, w, 3 + w,
       if meta.hasTexture then some (6 + w) else none⟩
    let r := writeVerts cap meta.hasTexture vbuf w (m.vertexPositions.getD [])
      (m.vertexNormals.getD []) ((m.vertexTexCoordinates.getD []).headD [])
    let ibuf2 := if meta.hasIndices then
        iboWrite icap ibuf (m.indices.getD []) (meta.indicesOffset.getD 0)
      else ibuf
    let st := writePass cap icap rest r.buf ibuf2 r.w
    ⟨st.vbuf, st.ibuf, st.writeIdx, layout :: st.layouts, r.events :: st.vboEvents⟩

/-- Everything _initBuffers produces: the allocated sizes, the two packed
buffers, the per-mesh layout fields, the final write cursor, and the trace
of vertex-buffer writes grouped by mesh. -/
structure BuffersResult where
  layouts : List MeshLayout
  vboSize : ℕ
  iboSize : ℕ
  vbo : ℕ → ℚ
  ibo : ℕ → ℕ
  finalWriteIdx : ℕ
  vboEvents : List (List (ℕ × ℕ))

/-- The whole of _initBuffers: the size pass (which raises the TypeError of
the source on a malformed description before anything is allocated), the
allocation of both buffers zero-initialized at the computed sizes, and the
write pass. -/
def initBuffers (s : Scene) : Except String BuffersResult :=
  match sizePass s.materials s.meshes 0 0 with
  | .error e => .error e
  | .ok (metas, vboSize, iboSize) =>
    let st := writePass vboSize iboSize (s.meshes.zip metas) (fun _ => 0) (fun _ => 0) 0
    .ok ⟨st.layouts, vboSize, iboSize, st.vbuf, st.ibuf, st.writeIdx, st.vboEvents⟩

/-- The gl-matrix mat4.inverse: the adjugate divided by the determinant,
guarded by a determinant test that returns null (none) for a singular
matrix, leaving the destination untouched. -/
def mat4inverse (M : Mat4) : Option Mat4 :=
  if M.det = 0 then none else some (M.det⁻¹ • M.adjugate)

/-- The normal matrix _initNormalMatrices stores on a node (source lines
288-290): a zero-initialized destination (mat4.create), mat4.inverse into
it — which leaves it zero when the model matrix is singular — and an
in-place mat4.transpose. -/
def normalMatrixOf (M : Mat4) : Mat4 :=
  Matrix.transpose ((mat4inverse M).getD 0)

/-- The loop of _initNormalMatrices: the normal matrix of every node, in
node order. -/
def initNormalMatrices (nodes : List Node) : List Mat4 :=
  nodes.map (fun nd => normalMatrixOf nd.modelMatrix)

/-- A uniform scale by q as a 4x4 homogeneous matrix. -/
def scaleMat (q : ℚ) : Mat4 :=
  Matrix.diagonal ![q, q, q, 1]

/-- Number.MAX_VALUE, the largest finite double, as an exact rational. -/
def MAXV : ℚ := (2 ^ 53 - 1) * 2 ^ 971

/-- Number.MIN_VALUE, the smallest positive (subnormal) double, as an exact
rational.  The extents scan initializes its running maximum to -MINV. -/
def MINV : ℚ := 1 / 2 ^ 1074

/-- The closure makeExtentsUpdater builds in _computeExtents (source lines
297-316): per component, keep the first argument when the predicate accepts
the pair, the second otherwise. -/
def updateExtents (pred : ℚ → ℚ → Bool) (v1 v2 : Vec3) : Vec3 :=
  fun c => if pred (v1 c) (v2 c) then v1 c else v2 c

/-- The transform mat4.multiplyVec3 applies: the matrix acting on the
homogeneous point (x, y, z, 1), without perspective divide; one component
per destination slot, as in the gl-matrix source. -/
def transformPoint (M : Mat4) (v : Vec3) : Vec3 :=
  ![M 0 0 * v 0 + M 0 1 * v 1 + M 0 2 * v 2 + M 0 3,
    M 1 0 * v 0 + M 1 1 * v 1 + M 1 2 * v 2 + M 1 3,
    M 2 0 * v 0 + M 2 1 * v 1 + M 2 2 * v 2 + M 2 3]

/-- The innermost loop of _computeExtents (source lines 339-349): step
through the position array three elements at a time, transform the triple by
the node's model matrix, and fold it into the running extents with the
strict-comparison updaters.  A position array whose length is not a
multiple of three makes the JavaScript code read undefined slots; the model
reads 0 there. -/
def scanVerts (M : Mat4) : List ℚ → Vec3 → Vec3 → Vec3 × Vec3
  | [], mn, mx => (mn, mx)
  | [x], mn, mx =>
    (updateExtents (fun a b => decide (a < b)) mn (transformPoint M ![x, 0, 0]),
     updateExtents (fun a b => decide (a > b)) mx (transformPoint M ![x, 0, 0]))
  | [x, y], mn, mx =>
    (updateExtents (fun a b => decide (a < b)) mn (transformPoint M ![x, y, 0]),
     updateExtents (fun a b => decide (a > b)) mx (transformPoint M ![x, y, 0]))
  | x :: y :: z :: rest, mn, mx =>
    scanVerts M rest
      (updateExtents (fun a b => decide (a < b)) mn (transformPoint M ![x, y, z]))
      (updateExtents (fun a b => decide (a > b)) mx (transformPoint M ![x, y, z]))

/-- The middle loop of _computeExtents over a node's mesh indices (source
lines 335-350); an out-of-range mesh index or a missing position array is
the JavaScript TypeError. -/
def scanMeshIdx (meshes : List Mesh) (M : Mat4) :
    List ℕ → Vec3 → Vec3 → Except String (Vec3 × Vec3)
  | [], mn, mx => .ok (mn, mx)
  | mi :: rest, mn, mx =>
    match meshes.get? mi with
    | none => .error "TypeError: cannot read vertexPositions of undefined"
    | some mesh =>
      match mesh.vertexPositions with
      | none => .error "TypeError: cannot read length of undefined vertexPositions"
      | some verts =>
        let r := scanVerts M verts mn mx
        scanMeshIdx meshes M rest r.1 r.2

/-- The outer loop of _computeExtents over all nodes. -/
def scanNodes (meshes : List Mesh) :
    List Node → Vec3 → Vec3 → Except String (Vec3 × Vec3)
  | [], mn, mx => .ok (mn, mx)
  | nd :: rest, mn, mx =>
    match scanMeshIdx meshes nd.modelMatrix nd.meshIndices mn mx with
    | .error e => .error e
    | .ok (mn2, mx2) => scanNodes meshes rest mn2 mx2

/-- The extents _computeExtents stores on the model.  The source's diagonal
is the square root of diagonalSq (see Extents.diagonal). -/
structure Extents where
  min : Vec3
  max : Vec3
  center : Vec3
  diagonalSq : ℚ
deriving DecidableEq

/-- The whole of _computeExtents (source lines 295-361): scan from the
sentinels (Number.MAX_VALUE, and -Number.MIN_VALUE for the maximum), then
center = (min + max) * 0.5 and the squared diagonal of vec3.dist. -/
def computeExtents (s : Scene) : Except String Extents :=
  match scanNodes s.meshes s.nodes (fun _ => MAXV) (fun _ => -MINV) with
  | .error e => .error e
  | .ok (mn, mx) =>
    .ok ⟨mn, mx, fun c => (mn c + mx c) * (1 / 2),
      (mx 0 - mn 0) ^ 2 + (mx 1 - mn 1) ^ 2 + (mx 2 - mn 2) ^ 2⟩

/-- The source's diagonal field, vec3.dist of min and max: the Euclidean
norm, the one operation of the subsystem that leaves the rationals. -/
noncomputable def Extents.diagonal (e : Extents) : ℝ :=
  Real.sqrt (e.diagonalSq : ℝ)

/-- Raw position triples of a position array, formed exactly as the k-loop
of _computeExtents forms them (spec vocabulary for the scan's visits). -/
def meshPoints : List ℚ → List Vec3
  | [] => []
  | [x] => [![x, 0, 0]]
  | [x, y] => [![x, y, 0]]
  | x :: y :: z :: rest => ![x, y, z] :: meshPoints rest

/-- One step of the extents scan on the accumulated (min, max) pair: the
strict-comparison updaters applied to the next world-space point. -/
def extStep (acc : Vec3 × Vec3) (p : Vec3) : Vec3 × Vec3 :=
  (updateExtents (fun a b => decide (a < b)) acc.1 p,
   updateExtents (fun a b => decide (a > b)) acc.2 p)

/-- The world-space points one node contributes to the scan: for every mesh
index it lists (once per listing), the position triples of that mesh
transformed by this node's model matrix. -/
def nodePoints (meshes : List Mesh) (nd : Node) : List Vec3 :=
  nd.meshIndices.flatMap (fun mi =>
    (meshPoints ((meshes.getD mi dMesh).vertexPositions.getD [])).map
      (transformPoint nd.modelMatrix))

/-- The world-space points the extents scan visits, in visit order. -/
def visitedPoints (s : Scene) : List Vec3 :=
  s.nodes.flatMap (nodePoints s.meshes)

/-- Check that every mesh index any node lists resolves to a mesh with a
defined position array, so the extents scan cannot hit a TypeError. -/
def sceneRefsOk (s : Scene) : Bool :=
  s.nodes.all (fun nd => nd.meshIndices.all (fun mi =>
    ((s.meshes.get? mi).bind (fun mesh => mesh.vertexPositions)).isSome))

/-- Vertex-buffer size the size pass accumulates for a mesh list. -/
def vboSizeOf (materials : List Material) (ms : List Mesh) : ℕ :=
  (ms.map (vboContrib materials)).sum

/-- Index-buffer size the size pass accumulates for a mesh list. -/
def iboSizeOf (ms : List Mesh) : ℕ := (ms.map idxLen).sum

/-- Closed form of the metadata list the size pass produces when started at
running index-buffer size i (lemma vocabulary). -/
def metasOf (materials : List Material) : List Mesh → ℕ → List MeshMeta
  | [], _ => []
  | m :: ms, i => metaAt materials m i :: metasOf materials ms (i + idxLen m)

/-- Concrete scene of the spec's first extents example: one identity node
referencing one triangle. -/
def shipEx1 : Scene :=
  ⟨[⟨some [0, 0, 0, 2, 0, 0, 0, 2, 0], some [0, 0, 1, 0, 0, 1, 0, 0, 1], none, none, 0⟩],
   [], [⟨1, [0]⟩]⟩

/-- Concrete scene of the spec's second extents example: the same triangle
under a translation by (5, 0, 0). -/
def shipEx2 : Scene :=
  ⟨[⟨some [0, 0, 0, 2, 0, 0, 0, 2, 0], some [0, 0, 1, 0, 0, 1, 0, 0, 1], none, none, 0⟩],
   [],
   [⟨Matrix.of ![![1, 0, 0, 5], ![0, 1, 0, 0], ![0, 0, 1, 0], ![0, 0, 0, 1]], [0]⟩]⟩

/-- Concrete scene with a single all-negative vertex: the extents scan's
maximum stays at the -Number.MIN_VALUE sentinel instead of reaching -1. -/
def shipCex4 : Scene :=
  ⟨[⟨some [-1, -1, -1], some [0, 0, 1], none, none, 0⟩], [], [⟨1, [0]⟩]⟩

/-- Concrete scene whose single mesh has three position elements but an
empty normal array: a position/normal count mismatch. -/
def shipCex8 : Scene :=
  ⟨[⟨some [1, 2, 3], some [], none, none, 0⟩], [], []⟩

/-- Concrete scene whose single mesh is missing its vertexNormals array. -/
def shipMissing8 : Scene :=
  ⟨[⟨some [1, 2, 3], none, none, none, 0⟩], [], []⟩

/-- Concrete two-mesh scene exercising both layouts: an untextured indexed
triangle and a textured two-vertex mesh. -/
def shipWit : Scene :=
  ⟨[⟨some [0, 0, 0, 2, 0, 0, 0, 2, 0], some [0, 0, 1, 0, 0, 1, 0, 0, 1], none,
     some [0, 1, 2], 0⟩,
    ⟨some [0, 0, 0, 2, 0, 0], some [0, 0, 1, 0, 0, 1], some [[5, 6, 7, 8]],
     none, 0⟩],
   [⟨["a.png"]⟩], []⟩

/-- The scene shipEx1 with an extra mesh appended that no node references. -/
def shipEx1Plus : Scene :=
  ⟨shipEx1.meshes ++ [⟨some [9, 9, 9], some [0, 0, 1], none, none, 0⟩],
   shipEx1.materials, shipEx1.nodes⟩

lemma sizeIndices_eq (m : Mesh) (ht : Bool) (st i : ℕ) :
    sizeIndices m ht st i = (⟨ht, st, meshHasIdx m,
      if meshHasIdx m = true then some i else none,
      if meshHasIdx m = true then some (2 * i) else none⟩, i + idxLen m) := by
  rcases h : m.indices with _ | idxs
  · simp [sizeIndices, meshHasIdx, idxLen, h]
  · by_cases h2 : 0 < idxs.length
    · simp [sizeIndices, meshHasIdx, idxLen, h, h2]
    · simp [sizeIndices, meshHasIdx, idxLen, h, h2, Nat.eq_zero_of_not_pos h2]

lemma sizeMesh_eq (materials : List Material) (m : Mesh) (v i : ℕ)
    (h : MeshPresent materials m) :
    sizeMesh materials m v i =
      .ok (metaAt materials m i, v + vboContrib materials m, i + idxLen m) := by
  obtain ⟨h1, h2, h3⟩ := h
  obtain ⟨pos, hp⟩ := Option.isSome_iff_exists.mp h1
  obtain ⟨nrm, hn⟩ := Option.isSome_iff_exists.mp h2
  by_cases ht : texCond m = true
  · have hmatlt := h3 ht
    obtain ⟨mat, hmat⟩ : ∃ mat, materials[m.materialIndex]? = some mat := by
      rw [List.getElem?_eq_getElem hmatlt]
      exact ⟨_, rfl⟩
    have hmat2 : materials.getD m.materialIndex dMat = mat := by
      rw [List.getD_eq_getElem?_getD, hmat]
      rfl
    have hmat3 : materials.get? m.materialIndex = some mat := by
      rw [List.get?_eq_getElem?]
      exact hmat
    unfold sizeMesh
    rw [hp, hn]
    dsimp only
    rw [if_pos ht, hmat3]
    dsimp only
    by_cases hd : 0 < mat.diffuseTexture.length
    · simp [hd, sizeIndices_eq, metaAt, meshHasTex, meshStride, vboContrib,
        posLen, nrmLen, hp, hn, ht, hmat]
      omega
    · simp [hd, sizeIndices_eq, metaAt, meshHasTex, meshStride, vboContrib,
        posLen, nrmLen, hp, hn, ht, hmat]
      omega
  · unfold sizeMesh
    rw [hp, hn]
    dsimp only
    rw [if_neg ht]
    simp [sizeIndices_eq, metaAt, meshHasTex, meshStride, vboContrib,
      posLen, nrmLen, hp, hn, Bool.of_not_eq_true ht]
    omega

lemma metasOf_length (materials : List Material) (ms : List Mesh) (i : ℕ) :
    (metasOf materials ms i).length = ms.length := by
  induction ms generalizing i with
  | nil => simp [metasOf]
  | cons m ms ih => simp [metasOf, ih]

lemma sizePass_eq (materials : List Material) (ms : List Mesh) (v i : ℕ)
    (h : ∀ m ∈ ms, MeshPresent materials m) :
    sizePass materials ms v i =
      .ok (metasOf materials ms i, v + vboSizeOf materials ms, i + iboSizeOf ms) := by
  induction ms generalizing v i with
  | nil => simp [sizePass, vboSizeOf, iboSizeOf, metasOf]
  | cons m ms ih =>
    have hm := h m (by simp)
    have ih2 := ih (v + vboContrib materials m) (i + idxLen m)
      (fun m2 hm2 => h m2 (by simp [hm2]))
    rw [sizePass, sizeMesh_eq materials m v i hm]
    dsimp only
    rw [ih2]
    simp [metasOf, vboSizeOf, iboSizeOf]
    omega

lemma metasOf_getD (materials : List Material) (ms : List Mesh) (i j : ℕ)
    (hj : j < ms.length) :
    (metasOf materials ms i).getD j default =
      metaAt materials (ms.getD j dMesh) (i + iboSizeOf (ms.take j)) := by
  induction ms generalizing i j with
  | nil => simp at hj
  | cons m ms ih =>
    cases j with
    | zero => simp [metasOf, iboSizeOf]
    | succ j =>
      have hj2 : j < ms.length := by simp at hj; omega
      simp only [metasOf, List.getD_cons_succ, List.take_succ_cons, iboSizeOf,
        List.map_cons, List.sum_cons]
      rw [ih (i + idxLen m) j hj2]
      unfold iboSizeOf
      congr 1
      omega

lemma bufWrite_lt (cap : ℕ) (buf : ℕ → ℚ) (arr : List ℚ) (idx i : ℕ) (h : i < idx) :
    bufWrite cap buf arr idx i = buf i := by
  unfold bufWrite
  by_cases hc : idx + arr.length ≤ cap
  · rw [if_pos hc]
    have h2 : ¬(idx ≤ i ∧ i < idx + arr.length) := by omega
    exact if_neg h2
  · rw [if_neg hc]

lemma bufWrite_get (cap : ℕ) (buf : ℕ → ℚ) (arr : List ℚ) (idx i : ℕ)
    (hc : idx + arr.length ≤ cap) (h1 : idx ≤ i) (h2 : i < idx + arr.length) :
    bufWrite cap buf arr idx i = arr.getD (i - idx) 0 := by
  unfold bufWrite
  rw [if_pos hc]
  exact if_pos ⟨h1, h2⟩

lemma take3_cons (x y z : ℚ) (l : List ℚ) : (x :: y :: z :: l).take 3 = [x, y, z] := rfl

lemma drop3_cons (x y z : ℚ) (l : List ℚ) : (x :: y :: z :: l).drop 3 = l := rfl

lemma take2_cons (x y : ℚ) (l : List ℚ) : (x :: y :: l).take 2 = [x, y] := rfl

lemma drop2_cons (x y : ℚ) (l : List ℚ) : (x :: y :: l).drop 2 = l := rfl

lemma getD_cons3 (a b c : ℚ) (l : List ℚ) (k t : ℕ) :
    (a :: b :: c :: l).getD (3 * (k + 1) + t) 0 = l.getD (3 * k + t) 0 := by
  have h : 3 * (k + 1) + t = (3 * k + t) + 1 + 1 + 1 := by ring
  rw [h]
  simp [List.getD_cons_succ]

lemma getD_cons2 (a b : ℚ) (l : List ℚ) (k t : ℕ) :
    (a :: b :: l).getD (2 * (k + 1) + t) 0 = l.getD (2 * k + t) 0 := by
  have h : 2 * (k + 1) + t = (2 * k + t) + 1 + 1 := by ring
  rw [h]
  simp [List.getD_cons_succ]

lemma vboContrib_stride (materials : List Material) (m : Mesh)
    (h : MeshWF materials m) :
    vboContrib materials m = meshStride materials m * vertCount m := by
  obtain ⟨_, hlen, h3, htex⟩ := h
  obtain ⟨n, hn⟩ := h3
  unfold vboContrib meshStride vertCount
  by_cases ht : meshHasTex materials m = true
  · have h2 := htex ht
    simp [ht]
    omega
  · simp [ht]
    omega

lemma writeVerts_spec (cap : ℕ) (hasTex : Bool) (st : ℕ)
    (hst : st = if hasTex = true then 8 else 6) (n : ℕ) :
    ∀ (buf : ℕ → ℚ) (w : ℕ) (pos nrm tex : List ℚ),
    pos.length = 3 * n → nrm.length = 3 * n →
    (hasTex = true → tex.length = 2 * n) →
    (writeVerts cap hasTex buf w pos nrm tex).w = w + n * st ∧
    (((writeVerts cap hasTex buf w pos nrm tex).events.map Prod.snd).sum = n * st) ∧
    (∀ e ∈ (writeVerts cap hasTex buf w pos nrm tex).events,
      0 < e.2 ∧ w ≤ e.1 ∧ e.1 + e.2 ≤ w + n * st) ∧
    (∀ i, i < w → (writeVerts cap hasTex buf w pos nrm tex).buf i = buf i) ∧
    (w + n * st ≤ cap → ∀ k, k < n →
      (∀ t, t < 3 → (writeVerts cap hasTex buf w pos nrm tex).buf (w + k * st + t)
          = pos.getD (3 * k + t) 0) ∧
      (∀ t, t < 3 → (writeVerts cap hasTex buf w pos nrm tex).buf (w + k * st + 3 + t)
          = nrm.getD (3 * k + t) 0) ∧
      (hasTex = true → ∀ t, t < 2 →
        (writeVerts cap hasTex buf w pos nrm tex).buf (w + k * st + 6 + t)
          = tex.getD (2 * k + t) 0)) := by
  induction n with
  | zero =>
    intro buf w pos nrm tex hpos hnrm htex
    have hp0 : pos = [] := List.eq_nil_of_length_eq_zero (by omega)
    subst hp0
    simp [writeVerts]
  | succ n ih =>
    intro buf w pos nrm tex hpos hnrm htex
    obtain ⟨a1, a2, a3, posr, rfl⟩ : ∃ a b c r, pos = a :: b :: c :: r := by
      rcases pos with _ | ⟨a, _ | ⟨b, _ | ⟨c, r⟩⟩⟩
      · simp only [List.length_nil] at hpos; omega
      · simp only [List.length_cons, List.length_nil] at hpos; omega
      · simp only [List.length_cons, List.length_nil] at hpos; omega
      · exact ⟨a, b, c, r, rfl⟩
    obtain ⟨c1, c2, c3, nrmr, rfl⟩ : ∃ a b c r, nrm = a :: b :: c :: r := by
      rcases nrm with _ | ⟨a, _ | ⟨b, _ | ⟨c, r⟩⟩⟩
      · simp only [List.length_nil] at hnrm; omega
      · simp only [List.length_cons, List.length_nil] at hnrm; omega
      · simp only [List.length_cons, List.length_nil] at hnrm; omega
      · exact ⟨a, b, c, r, rfl⟩
    have hposr : posr.length = 3 * n := by
      simp only [List.length_cons] at hpos; omega
    have hnrmr : nrmr.length = 3 * n := by
      simp only [List.length_cons] at hnrm; omega
    cases hasTex with
    | false =>
      have hst6 : st = 6 := by simp [hst]
      subst hst6
      rw [writeVerts]
      simp only [Bool.false_eq_true, if_false, take3_cons, drop3_cons]
      have hrec := ih (bufWrite cap (bufWrite cap buf [a1, a2, a3] w) [c1, c2, c3] (w + 3))
        (w + 6) posr nrmr tex hposr hnrmr (by simp)
      obtain ⟨ih1, ih2, ih3, ih4, ih5⟩ := hrec
      refine ⟨?_, ?_, ?_, ?_, ?_⟩
      · rw [ih1]; ring
      · simp only [List.map_cons, List.sum_cons, ih2, List.length_cons, List.length_nil]
        omega
      · intro e he
        simp only [List.mem_cons] at he
        rcases he with he | he | he
        · subst he
          refine ⟨?_, ?_, ?_⟩ <;> simp <;> omega
        · subst he
          refine ⟨?_, ?_, ?_⟩ <;> simp <;> omega
        · obtain ⟨h1, h2, h3⟩ := ih3 e he
          exact ⟨h1, by omega, by omega⟩
      · intro i hi
        rw [ih4 i (by omega), bufWrite_lt cap _ _ (w + 3) i (by omega),
          bufWrite_lt cap _ _ w i (by omega)]
      · intro hcap k hk
        have hc1 : w + [a1, a2, a3].length ≤ cap := by simp; omega
        have hc2 : (w + 3) + [c1, c2, c3].length ≤ cap := by simp; omega
        cases k with
        | zero =>
          refine ⟨?_, ?_, by simp⟩
          · intro t htl
            rw [show w + 0 * 6 + t = w + t by ring]
            rw [ih4 (w + t) (by omega),
              bufWrite_lt cap _ _ (w + 3) (w + t) (by omega),
              bufWrite_get cap buf [a1, a2, a3] w (w + t) hc1 (by omega) (by simp; omega)]
            rw [show w + t - w = t by omega, show 3 * 0 + t = t by ring]
            interval_cases t <;> simp
          · intro t htl
            rw [show w + 0 * 6 + 3 + t = w + 3 + t by ring]
            rw [ih4 (w + 3 + t) (by omega),
              bufWrite_get cap _ [c1, c2, c3] (w + 3) (w + 3 + t) hc2 (by omega)
                (by simp; omega)]
            rw [show w + 3 + t - (w + 3) = t by omega, show 3 * 0 + t = t by ring]
            interval_cases t <;> simp
        | succ k =>
          have hk2 : k < n := by omega
          have hcap2 : (w + 6) + n * 6 ≤ cap := by omega
          obtain ⟨r1, r2, _⟩ := ih5 hcap2 k hk2
          refine ⟨?_, ?_, by simp⟩
          · intro t htl
            rw [show w + (k + 1) * 6 + t = (w + 6) + k * 6 + t by ring]
            rw [r1 t htl, getD_cons3]
          · intro t htl
            rw [show w + (k + 1) * 6 + 3 + t = (w + 6) + k * 6 + 3 + t by ring]
            rw [r2 t htl, getD_cons3]
    | true =>
      have hst8 : st = 8 := by simp [hst]
      subst hst8
      have htex2 : tex.length = 2 * (n + 1) := htex rfl
      obtain ⟨u1, u2, texr, rfl⟩ : ∃ a b r, tex = a :: b :: r := by
        rcases tex with _ | ⟨a, _ | ⟨b, r⟩⟩
        · simp only [List.length_nil] at htex2; omega
        · simp only [List.length_cons, List.length_nil] at htex2; omega
        · exact ⟨a, b, r, rfl⟩
      have htexr : texr.length = 2 * n := by
        simp only [List.length_cons] at htex2; omega
      rw [writeVerts]
      simp only [if_true, take3_cons, drop3_cons, take2_cons, drop2_cons]
      have hrec := ih
        (bufWrite cap (bufWrite cap (bufWrite cap buf [a1, a2, a3] w) [c1, c2, c3] (w + 3))
          [u1, u2] (w + 6))
        (w + 8) posr nrmr texr hposr hnrmr (fun _ => htexr)
      obtain ⟨ih1, ih2, ih3, ih4, ih5⟩ := hrec
      refine ⟨?_, ?_, ?_, ?_, ?_⟩
      · rw [ih1]; ring
      · simp only [List.map_cons, List.sum_cons, ih2, List.length_cons, List.length_nil]
        omega
      · intro e he
        simp only [List.mem_cons] at he
        rcases he with he | he | he | he
        · subst he
          refine ⟨?_, ?_, ?_⟩ <;> simp <;> omega
        · subst he
          refine ⟨?_, ?_, ?_⟩ <;> simp <;> omega
        · subst he
          refine ⟨?_, ?_, ?_⟩ <;> simp <;> omega
        · obtain ⟨h1, h2, h3⟩ := ih3 e he
          exact ⟨h1, by omega, by omega⟩
      · intro i hi
        rw [ih4 i (by omega), bufWrite_lt cap _ _ (w + 6) i (by omega),
          bufWrite_lt cap _ _ (w + 3) i (by omega),
          bufWrite_lt cap _ _ w i (by omega)]
      · intro hcap k hk
        have hc1 : w + [a1, a2, a3].length ≤ cap := by simp; omega
        have hc2 : (w + 3) + [c1, c2, c3].length ≤ cap := by simp; omega
        have hc3 : (w + 6) + [u1, u2].length ≤ cap := by simp; omega
        cases k with
        | zero =>
          refine ⟨?_, ?_, ?_⟩
          · intro t htl
            rw [show w + 0 * 8 + t = w + t by ring]
            rw [ih4 (w + t) (by omega),
              bufWrite_lt cap _ _ (w + 6) (w + t) (by omega),
              bufWrite_lt cap _ _ (w + 3) (w + t) (by omega),
              bufWrite_get cap buf [a1, a2, a3] w (w + t) hc1 (by omega) (by simp; omega)]
            rw [show w + t - w = t by omega, show 3 * 0 + t = t by ring]
            interval_cases t <;> simp
          · intro t htl
            rw [show w + 0 * 8 + 3 + t = w + 3 + t by ring]
            rw [ih4 (w + 3 + t) (by omega),
              bufWrite_lt cap _ _ (w + 6) (w + 3 + t) (by omega),
              bufWrite_get cap _ [c1, c2, c3] (w + 3) (w + 3 + t) hc2 (by omega)
                (by simp; omega)]
            rw [show w + 3 + t - (w + 3) = t by omega, show 3 * 0 + t = t by ring]
            interval_cases t <;> simp
          · intro _ t htl
            rw [show w + 0 * 8 + 6 + t = w + 6 + t by ring]
            rw [ih4 (w + 6 + t) (by omega),
              bufWrite_get cap _ [u1, u2] (w + 6) (w + 6 + t) hc3 (by omega)
                (by simp; omega)]
            rw [show w + 6 + t - (w + 6) = t by omega, show 2 * 0 + t = t by ring]
            interval_cases t <;> simp
        | succ k =>
          have hk2 : k < n := by omega
          have hcap2 : (w + 8) + n * 8 ≤ cap := by omega
          obtain ⟨r1, r2, r3⟩ := ih5 hcap2 k hk2
          refine ⟨?_, ?_, ?_⟩
          · intro t htl
            rw [show w + (k + 1) * 8 + t = (w + 8) + k * 8 + t by ring]
            rw [r1 t htl, getD_cons3]
          · intro t htl
            rw [show w + (k + 1) * 8 + 3 + t = (w + 8) + k * 8 + 3 + t by ring]
            rw [r2 t htl, getD_cons3]
          · intro _ t htl
            rw [show w + (k + 1) * 8 + 6 + t = (w + 8) + k * 8 + 6 + t by ring]
            rw [r3 rfl t htl, getD_cons2]

lemma writePass_spec (materials : List Material) (cap icap : ℕ) :
    ∀ (pairs : List (Mesh × MeshMeta)) (vbuf : ℕ → ℚ) (ibuf : ℕ → ℕ) (w : ℕ),
    (∀ p ∈ pairs, MeshWF materials p.1 ∧ p.2.hasTexture = meshHasTex materials p.1 ∧
      p.2.stride = meshStride materials p.1) →
    (writePass cap icap pairs vbuf ibuf w).writeIdx
        = w + (pairs.map (fun p => vboContrib materials p.1)).sum ∧
    (writePass cap icap pairs vbuf ibuf w).layouts.length = pairs.length ∧
    (writePass cap icap pairs vbuf ibuf w).vboEvents.length = pairs.length ∧
    (∀ i, i < w → (writePass cap icap pairs vbuf ibuf w).vbuf i = vbuf i) ∧
    ((writePass cap icap pairs vbuf ibuf w).vboEvents.map (fun ev => (ev.map Prod.snd).sum)
      = pairs.map (fun p => vboContrib materials p.1)) ∧
    (∀ j, j < pairs.length →
      (writePass cap icap pairs vbuf ibuf w).layouts.getD j dLayout =
        ⟨(pairs.getD j (dMesh, default)).2.hasTexture,
         (pairs.getD j (dMesh, default)).2.stride,
         (pairs.getD j (dMesh, default)).2.hasIndices,
         (pairs.getD j (dMesh, default)).2.indicesOffset,
         (pairs.getD j (dMesh, default)).2.indicesByteOffset,
         w + ((pairs.take j).map (fun p => vboContrib materials p.1)).sum,
         3 + (w + ((pairs.take j).map (fun p => vboContrib materials p.1)).sum),
         if (pairs.getD j (dMesh, default)).2.hasTexture then
           some (6 + (w + ((pairs.take j).map (fun p => vboContrib materials p.1)).sum))
         else none⟩ ∧
      ((((writePass cap icap pairs vbuf ibuf w).vboEvents.getD j []).map Prod.snd).sum
        = vboContrib materials (pairs.getD j (dMesh, default)).1) ∧
      (∀ e ∈ (writePass cap icap pairs vbuf ibuf w).vboEvents.getD j [],
        0 < e.2 ∧
        w + ((pairs.take j).map (fun p => vboContrib materials p.1)).sum ≤ e.1 ∧
        e.1 + e.2 ≤ w + ((pairs.take j).map (fun p => vboContrib materials p.1)).sum
          + vboContrib materials (pairs.getD j (dMesh, default)).1) ∧
      (w + (pairs.map (fun p => vboContrib materials p.1)).sum ≤ cap →
        ∀ k, k < vertCount (pairs.getD j (dMesh, default)).1 →
        (∀ t, t < 3 → (writePass cap icap pairs vbuf ibuf w).vbuf
            (w + ((pairs.take j).map (fun p => vboContrib materials p.1)).sum
              + k * (pairs.getD j (dMesh, default)).2.stride + t)
          = ((pairs.getD j (dMesh, default)).1.vertexPositions.getD []).getD (3 * k + t) 0) ∧
        (∀ t, t < 3 → (writePass cap icap pairs vbuf ibuf w).vbuf
            (w + ((pairs.take j).map (fun p => vboContrib materials p.1)).sum
              + k * (pairs.getD j (dMesh, default)).2.stride + 3 + t)
          = ((pairs.getD j (dMesh, default)).1.vertexNormals.getD []).getD (3 * k + t) 0) ∧
        ((pairs.getD j (dMesh, default)).2.hasTexture = true →
          ∀ t, t < 2 → (writePass cap icap pairs vbuf ibuf w).vbuf
            (w + ((pairs.take j).map (fun p => vboContrib materials p.1)).sum
              + k * (pairs.getD j (dMesh, default)).2.stride + 6 + t)
          = (((pairs.getD j (dMesh, default)).1.vertexTexCoordinates.getD []).headD
              []).getD (2 * k + t) 0))) := by
  intro pairs
  induction pairs with
  | nil =>
    intro vbuf ibuf w _
    refine ⟨by simp [writePass], by simp [writePass], by simp [writePass],
      fun i _ => by simp [writePass], by simp [writePass], fun j hj => by simp at hj⟩
  | cons p rest ih =>
    intro vbuf ibuf w hyp
    obtain ⟨m, meta⟩ := p
    have hwf : MeshWF materials m := (hyp (m, meta) (by simp)).1
    have hht : meta.hasTexture = meshHasTex materials m := (hyp (m, meta) (by simp)).2.1
    have hstr : meta.stride = meshStride materials m := (hyp (m, meta) (by simp)).2.2
    have hyprest : ∀ q ∈ rest, MeshWF materials q.1 ∧
        q.2.hasTexture = meshHasTex materials q.1 ∧
        q.2.stride = meshStride materials q.1 :=
      fun q hq => hyp q (by simp [hq])
    obtain ⟨hpres, hlen, hdvd, htexlen⟩ := hwf
    obtain ⟨n, hn⟩ := hdvd
    have hvc : vertCount m = n := by unfold vertCount; omega
    have hst : meta.stride = if meta.hasTexture = true then 8 else 6 := by
      rw [hstr, hht]
      unfold meshStride
      by_cases hx : meshHasTex materials m = true <;> simp [hx]
    have hplen : (m.vertexPositions.getD []).length = 3 * n := hn
    have hnlen : (m.vertexNormals.getD []).length = 3 * n := by
      have h2 : nrmLen m = 3 * n := by rw [hlen]; exact hn
      exact h2
    have htlen : meta.hasTexture = true →
        ((m.vertexTexCoordinates.getD []).headD []).length = 2 * n := by
      intro h
      have h2 := htexlen (by rw [← hht]; exact h)
      have h3 : 3 * ((m.vertexTexCoordinates.getD []).headD []).length
          = 2 * (m.vertexPositions.getD []).length := h2
      omega
    have hcontrib : vboContrib materials m = n * meta.stride := by
      rw [vboContrib_stride materials m ⟨hpres, hlen, ⟨n, hn⟩, htexlen⟩, hvc, hstr]
      ring
    obtain ⟨v1, v2, v3, v4, v5⟩ := writeVerts_spec cap meta.hasTexture meta.stride hst n
      vbuf w (m.vertexPositions.getD []) (m.vertexNormals.getD [])
      ((m.vertexTexCoordinates.getD []).headD []) hplen hnlen htlen
    have hstpos : 6 ≤ meta.stride := by
      rw [hst]
      split <;> omega
    rw [writePass]
    dsimp only
    set r := writeVerts cap meta.hasTexture vbuf w (m.vertexPositions.getD [])
      (m.vertexNormals.getD []) ((m.vertexTexCoordinates.getD []).headD []) with hr
    set ibuf2 := if meta.hasIndices = true then
        iboWrite icap ibuf (m.indices.getD []) (meta.indicesOffset.getD 0)
      else ibuf with hibuf2
    obtain ⟨w1, w2, w3, w4, w6, w5⟩ := ih r.buf ibuf2 r.w hyprest
    have hrw : r.w = w + n * meta.stride := v1
    refine ⟨?_, ?_, ?_, ?_, ?_, ?_⟩
    · rw [w1, hrw]
      simp only [List.map_cons, List.sum_cons]
      rw [hcontrib]
      ring
    · simp [w2]
    · simp [w3]
    · intro i hi
      rw [w4 i (by omega), v4 i hi]
    · simp only [List.map_cons, w6]
      rw [v2, hcontrib]
    · intro j hj
      cases j with
      | zero =>
        refine ⟨by simp, by simp [v2, hcontrib], ?_, ?_⟩
        · intro e he
          simp only [List.getD_cons_zero] at he
          obtain ⟨b1, b2, b3⟩ := v3 e he
          refine ⟨b1, by simpa using b2, ?_⟩
          simp only [List.take_zero, List.map_nil, List.sum_nil, Nat.add_zero,
            List.getD_cons_zero]
          rw [hcontrib]
          omega
        · intro hcap k hk
          simp only [List.getD_cons_zero, List.take_zero, List.map_nil,
            List.sum_nil, Nat.add_zero] at hk ⊢
          simp only [List.map_cons, List.sum_cons] at hcap
          have hcap0 : w + n * meta.stride ≤ cap := by
            rw [hcontrib] at hcap
            omega
          rw [hvc] at hk
          obtain ⟨p1, p2, p3⟩ := v5 hcap0 k hk
          have hkb : k * meta.stride + meta.stride ≤ n * meta.stride := by
            have h1 : (k + 1) * meta.stride ≤ n * meta.stride :=
              Nat.mul_le_mul (by omega) (le_refl meta.stride)
            calc k * meta.stride + meta.stride = (k + 1) * meta.stride := by ring
            _ ≤ n * meta.stride := h1
          refine ⟨?_, ?_, ?_⟩
          · intro t htl
            rw [w4 (w + k * meta.stride + t) (by omega), p1 t htl]
          · intro t htl
            rw [w4 (w + k * meta.stride + 3 + t) (by omega), p2 t htl]
          · intro hhx t htl
            have hst8 : meta.stride = 8 := by rw [hst, if_pos hhx]
            rw [w4 (w + k * meta.stride + 6 + t) (by omega), p3 hhx t htl]
      | succ j =>
        have hj2 : j < rest.length := by simp at hj; omega
        obtain ⟨y1, y2, y3, y4⟩ := w5 j hj2
        have htake : ((m, meta) :: rest).take (j + 1) = (m, meta) :: rest.take j := rfl
        have hsums : w + ((((m, meta) :: rest).take (j + 1)).map
            (fun p => vboContrib materials p.1)).sum
            = r.w + ((rest.take j).map (fun p => vboContrib materials p.1)).sum := by
          rw [htake, hrw]
          simp only [List.map_cons, List.sum_cons]
          rw [hcontrib]
          ring
        refine ⟨?_, ?_, ?_, ?_⟩
        · simp only [List.getD_cons_succ]
          rw [y1, hsums]
        · simp only [List.getD_cons_succ]
          exact y2
        · intro e he
          simp only [List.getD_cons_succ] at he
          obtain ⟨b1, b2, b3⟩ := y3 e he
          rw [List.getD_cons_succ, hsums]
          exact ⟨b1, b2, b3⟩
        · intro hcap k hk
          simp only [List.getD_cons_succ] at hk ⊢
          have hcap2 : r.w + (rest.map (fun p => vboContrib materials p.1)).sum ≤ cap := by
            simp only [List.map_cons, List.sum_cons] at hcap
            rw [hrw]
            rw [hcontrib] at hcap
            omega
          obtain ⟨p1, p2, p3⟩ := y4 hcap2 k hk
          rw [hsums]
          exact ⟨p1, p2, p3⟩

lemma writePass_layouts (cap icap : ℕ) :
    ∀ (pairs : List (Mesh × MeshMeta)) (vbuf : ℕ → ℚ) (ibuf : ℕ → ℕ) (w : ℕ),
    (writePass cap icap pairs vbuf ibuf w).layouts.length = pairs.length ∧
    (writePass cap icap pairs vbuf ibuf w).vboEvents.length = pairs.length ∧
    (∀ j, j < pairs.length →
      ((writePass cap icap pairs vbuf ibuf w).layouts.getD j dLayout).hasTexture
        = (pairs.getD j (dMesh, default)).2.hasTexture ∧
      ((writePass cap icap pairs vbuf ibuf w).layouts.getD j dLayout).stride
        = (pairs.getD j (dMesh, default)).2.stride ∧
      ((writePass cap icap pairs vbuf ibuf w).layouts.getD j dLayout).hasIndices
        = (pairs.getD j (dMesh, default)).2.hasIndices ∧
      ((writePass cap icap pairs vbuf ibuf w).layouts.getD j dLayout).indicesOffset
        = (pairs.getD j (dMesh, default)).2.indicesOffset ∧
      ((writePass cap icap pairs vbuf ibuf w).layouts.getD j dLayout).indicesByteOffset
        = (pairs.getD j (dMesh, default)).2.indicesByteOffset ∧
      ((pairs.getD j (dMesh, default)).2.hasTexture = false →
        ((writePass cap icap pairs vbuf ibuf w).layouts.getD j dLayout).texCoordsOffset
          = none)) := by
  intro pairs
  induction pairs with
  | nil =>
    intro vbuf ibuf w
    exact ⟨by simp [writePass], by simp [writePass], fun j hj => by simp at hj⟩
  | cons p rest ih =>
    intro vbuf ibuf w
    obtain ⟨m, meta⟩ := p
    rw [writePass]
    dsimp only
    set r := writeVerts cap meta.hasTexture vbuf w (m.vertexPositions.getD [])
      (m.vertexNormals.getD []) ((m.vertexTexCoordinates.getD []).headD []) with hrset
    set ibuf2 := if meta.hasIndices = true then
        iboWrite icap ibuf (m.indices.getD []) (meta.indicesOffset.getD 0)
      else ibuf with hibuf2
    obtain ⟨i1, i2, i3⟩ := ih r.buf ibuf2 r.w
    refine ⟨by simp [i1], by simp [i2], ?_⟩
    intro j hj
    cases j with
    | zero =>
      refine ⟨rfl, rfl, rfl, rfl, rfl, ?_⟩
      intro hx
      have hx2 : meta.hasTexture = false := by simpa using hx
      simp [hx2]
    | succ j =>
      have hj2 : j < rest.length := by simp at hj; omega
      simpa using i3 j hj2

lemma initBuffers_eq (s : Scene) (h : ScenePresent s) :
    initBuffers s = .ok
      ⟨(writePass (vboSizeOf s.materials s.meshes) (iboSizeOf s.meshes)
          (s.meshes.zip (metasOf s.materials s.meshes 0)) (fun _ => 0) (fun _ => 0) 0).layouts,
       vboSizeOf s.materials s.meshes, iboSizeOf s.meshes,
       (writePass (vboSizeOf s.materials s.meshes) (iboSizeOf s.meshes)
          (s.meshes.zip (metasOf s.materials s.meshes 0)) (fun _ => 0) (fun _ => 0) 0).vbuf,
       (writePass (vboSizeOf s.materials s.meshes) (iboSizeOf s.meshes)
          (s.meshes.zip (metasOf s.materials s.meshes 0)) (fun _ => 0) (fun _ => 0) 0).ibuf,
       (writePass (vboSizeOf s.materials s.meshes) (iboSizeOf s.meshes)
          (s.meshes.zip (metasOf s.materials s.meshes 0)) (fun _ => 0) (fun _ => 0) 0).writeIdx,
       (writePass (vboSizeOf s.materials s.meshes) (iboSizeOf s.meshes)
          (s.meshes.zip (metasOf s.materials s.meshes 0)) (fun _ => 0) (fun _ => 0) 0).vboEvents⟩ := by
  unfold initBuffers
  rw [sizePass_eq s.materials s.meshes 0 0 h]
  simp only [Nat.zero_add]

lemma zip_pairs_getD (s : Scene) (j : ℕ) (hj : j < s.meshes.length) :
    (s.meshes.zip (metasOf s.materials s.meshes 0)).getD j (dMesh, default)
      = (s.meshes.getD j dMesh,
         metaAt s.materials (s.meshes.getD j dMesh) (iboSizeOf (s.meshes.take j))) := by
  have hlen : (metasOf s.materials s.meshes 0).length = s.meshes.length :=
    metasOf_length s.materials s.meshes 0
  have hjz : j < (s.meshes.zip (metasOf s.materials s.meshes 0)).length := by
    rw [List.length_zip]
    omega
  rw [List.getD_eq_getElem _ _ hjz, List.getElem_zip]
  rw [show s.meshes[j] = s.meshes.getD j dMesh from (List.getD_eq_getElem _ _ hj).symm]
  rw [show (metasOf s.materials s.meshes 0)[j]
      = (metasOf s.materials s.meshes 0).getD j default from
    (List.getD_eq_getElem _ _ (by omega)).symm]
  rw [metasOf_getD s.materials s.meshes 0 j hj]
  simp only [Nat.zero_add]

lemma zip_pairs_hyp (s : Scene) (h : SceneWF s) :
    ∀ p ∈ s.meshes.zip (metasOf s.materials s.meshes 0),
      MeshWF s.materials p.1 ∧ p.2.hasTexture = meshHasTex s.materials p.1 ∧
      p.2.stride = meshStride s.materials p.1 := by
  intro p hp
  obtain ⟨j, hj, hget⟩ := List.mem_iff_getElem.mp hp
  have hjm : j < s.meshes.length := by
    rw [List.length_zip, metasOf_length] at hj
    omega
  have hgd : (s.meshes.zip (metasOf s.materials s.meshes 0)).getD j (dMesh, default) = p := by
    rw [List.getD_eq_getElem _ _ hj]
    exact hget
  rw [zip_pairs_getD s j hjm] at hgd
  subst hgd
  have hmem : s.meshes.getD j dMesh ∈ s.meshes := by
    rw [List.getD_eq_getElem _ _ hjm]
    exact List.getElem_mem hjm
  exact ⟨h _ hmem, rfl, rfl⟩

lemma zip_map_fst (s : Scene) :
    (s.meshes.zip (metasOf s.materials s.meshes 0)).map
        (fun p => vboContrib s.materials p.1)
      = s.meshes.map (vboContrib s.materials) := by
  have hlen : (metasOf s.materials s.meshes 0).length = s.meshes.length :=
    metasOf_length s.materials s.meshes 0
  rw [show (fun p : Mesh × MeshMeta => vboContrib s.materials p.1)
      = (vboContrib s.materials) ∘ Prod.fst from rfl]
  rw [← List.map_map, List.map_fst_zip _ _ (by omega)]

lemma zip_take_map_fst (s : Scene) (j : ℕ) :
    ((s.meshes.zip (metasOf s.materials s.meshes 0)).take j).map
        (fun p => vboContrib s.materials p.1)
      = (s.meshes.take j).map (vboContrib s.materials) := by
  rw [List.map_take, zip_map_fst, ← List.map_take]

lemma sum_take_mesh (f : Mesh → ℕ) (l : List Mesh) (j : ℕ) (hj : j < l.length) :
    ((l.take j).map f).sum + f (l.getD j dMesh) ≤ (l.map f).sum := by
  conv_rhs => rw [← List.take_append_drop j l]
  rw [List.map_append, List.sum_append]
  have hdrop : l.drop j = l[j] :: l.drop (j + 1) := List.drop_eq_getElem_cons hj
  rw [hdrop, List.map_cons, List.sum_cons, List.getD_eq_getElem _ _ hj]
  omega

lemma meshHasIdx_iff (m : Mesh) :
    meshHasIdx m = true ↔ ∃ idxs, m.indices = some idxs ∧ idxs ≠ [] := by
  unfold meshHasIdx
  rcases hx : m.indices with _ | idxs
  · simp [hx]
  · simp [hx, List.length_pos]

lemma idxLen_zero (m : Mesh) (h : meshHasIdx m = false) : idxLen m = 0 := by
  unfold meshHasIdx at h
  unfold idxLen
  rcases hx : m.indices with _ | idxs
  · simp [hx]
  · rw [hx] at h
    simp at h
    simp [hx, h]

lemma sum_filter_idxLen (l : List Mesh) :
    ((l.filter (fun m => meshHasIdx m)).map idxLen).sum = (l.map idxLen).sum := by
  induction l with
  | nil => simp
  | cons m l ih =>
    by_cases h : meshHasIdx m = true
    · simp [List.filter_cons, h, ih]
    · have h0 : idxLen m = 0 := idxLen_zero m (by simpa using h)
      simp [List.filter_cons, h, ih, h0]

lemma sizeMesh_error (materials : List Material) (m : Mesh) (v i : ℕ)
    (h : m.vertexPositions = none ∨ m.vertexNormals = none) :
    ∃ e, sizeMesh materials m v i = .error e := by
  unfold sizeMesh
  rcases h with h | h
  · rw [h]
    exact ⟨_, rfl⟩
  · rcases hp : m.vertexPositions with _ | pos
    · exact ⟨_, rfl⟩
    · rw [h]
      exact ⟨_, rfl⟩

lemma sizePass_error (materials : List Material) : ∀ (ms : List Mesh) (v i : ℕ),
    (∃ m ∈ ms, m.vertexPositions = none ∨ m.vertexNormals = none) →
    ∃ e, sizePass materials ms v i = .error e := by
  intro ms
  induction ms with
  | nil =>
    intro v i h
    simp at h
  | cons m ms ih =>
    intro v i h
    rw [sizePass]
    obtain ⟨m2, hm2, hbad⟩ := h
    simp only [List.mem_cons] at hm2
    rcases hm2 with rfl | hm2
    · obtain ⟨e, he⟩ := sizeMesh_error materials m2 v i hbad
      rw [he]
      exact ⟨e, rfl⟩
    · cases hs : sizeMesh materials m v i with
      | error e =>
        exact ⟨e, rfl⟩
      | ok val =>
        obtain ⟨meta, v2, i2⟩ := val
        obtain ⟨e, he⟩ := ih v2 i2 ⟨m2, hm2, hbad⟩
        dsimp only
        rw [he]
        exact ⟨e, rfl⟩

lemma meshes_getD_mem (s : Scene) (i : ℕ) (hi : i < s.meshes.length) :
    s.meshes.getD i dMesh ∈ s.meshes := by
  rw [List.getD_eq_getElem _ _ hi]
  exact List.getElem_mem hi

lemma zip_length (s : Scene) :
    (s.meshes.zip (metasOf s.materials s.meshes 0)).length = s.meshes.length := by
  rw [List.length_zip, metasOf_length]
  simp

/-- C2: after _initBuffers, every mesh layout has stride 6 plus 2 when
textured, hasTexture holds exactly when the texcoord channel 0 test passes
and the referenced material's diffuseTexture is non-empty, and an
untextured mesh's layout carries no texcoord offset. -/
theorem claim_C2 (s : Scene) (h : ScenePresent s) :
    ∃ r, initBuffers s = .ok r ∧
      r.layouts.length = s.meshes.length ∧
      ∀ i, i < s.meshes.length →
        (r.layouts.getD i dLayout).stride
          = 6 + (if (r.layouts.getD i dLayout).hasTexture = true then 2 else 0) ∧
        ((r.layouts.getD i dLayout).hasTexture = true ↔
          (texCond (s.meshes.getD i dMesh) = true ∧
            0 < ((s.materials.getD (s.meshes.getD i dMesh).materialIndex
              dMat).diffuseTexture).length)) ∧
        ((r.layouts.getD i dLayout).hasTexture = false →
          (r.layouts.getD i dLayout).texCoordsOffset = none) := by
  refine ⟨_, initBuffers_eq s h, ?_⟩
  obtain ⟨l1, l2, l3⟩ := writePass_layouts (vboSizeOf s.materials s.meshes)
    (iboSizeOf s.meshes) (s.meshes.zip (metasOf s.materials s.meshes 0))
    (fun _ => 0) (fun _ => 0) 0
  dsimp only
  refine ⟨by rw [l1, zip_length], ?_⟩
  intro i hi
  have hiz : i < (s.meshes.zip (metasOf s.materials s.meshes 0)).length := by
    rw [zip_length]
    exact hi
  obtain ⟨f1, f2, f3, f4, f5, f6⟩ := l3 i hiz
  rw [zip_pairs_getD s i hi] at f1 f2 f6
  have hmt : (metaAt s.materials (s.meshes.getD i dMesh)
      (iboSizeOf (s.meshes.take i))).hasTexture
      = meshHasTex s.materials (s.meshes.getD i dMesh) := rfl
  have hms : (metaAt s.materials (s.meshes.getD i dMesh)
      (iboSizeOf (s.meshes.take i))).stride
      = meshStride s.materials (s.meshes.getD i dMesh) := rfl
  rw [hmt] at f1 f6
  rw [hms] at f2
  refine ⟨?_, ?_, ?_⟩
  · rw [f2, f1]
    unfold meshStride
    by_cases hx : meshHasTex s.materials (s.meshes.getD i dMesh) = true
    · rw [if_pos hx, if_pos hx]
    · rw [if_neg hx, if_neg hx]
  · rw [f1]
    unfold meshHasTex
    rw [Bool.and_eq_true, decide_eq_true_eq]
  · intro hL
    exact f6 (by rw [← f1]; exact hL)

/-- C2 witness: the concrete two-mesh scene has the claimed strides and
texture flags. -/
theorem claim_C2_witness :
    ∃ r, initBuffers shipWit = .ok r ∧
      r.layouts.length = shipWit.meshes.length ∧
      ∀ i, i < shipWit.meshes.length →
        (r.layouts.getD i dLayout).stride
          = 6 + (if (r.layouts.getD i dLayout).hasTexture = true then 2 else 0) ∧
        ((r.layouts.getD i dLayout).hasTexture = true ↔
          (texCond (shipWit.meshes.getD i dMesh) = true ∧
            0 < ((shipWit.materials.getD (shipWit.meshes.getD i dMesh).materialIndex
              dMat).diffuseTexture).length)) ∧
        ((r.layouts.getD i dLayout).hasTexture = false →
          (r.layouts.getD i dLayout).texCoordsOffset = none) :=
  claim_C2 shipWit (by decide)

/-- C6: hasIndices holds exactly for meshes declaring a non-empty index
array, an indexed mesh's element offset is the total index count of the
earlier indexed meshes with the byte offset twice it, and the index buffer
size is the total index count. -/
theorem claim_C6 (s : Scene) (h : ScenePresent s) :
    ∃ r, initBuffers s = .ok r ∧
      r.layouts.length = s.meshes.length ∧
      r.iboSize = (s.meshes.map idxLen).sum ∧
      ∀ i, i < s.meshes.length →
        ((r.layouts.getD i dLayout).hasIndices = true ↔
          ∃ idxs, (s.meshes.getD i dMesh).indices = some idxs ∧ idxs ≠ []) ∧
        ((r.layouts.getD i dLayout).hasIndices = true →
          (r.layouts.getD i dLayout).indicesOffset
            = some ((((s.meshes.take i).filter
                (fun m2 => meshHasIdx m2)).map idxLen).sum) ∧
          (r.layouts.getD i dLayout).indicesByteOffset
            = some (2 * ((((s.meshes.take i).filter
                (fun m2 => meshHasIdx m2)).map idxLen).sum))) := by
  refine ⟨_, initBuffers_eq s h, ?_⟩
  obtain ⟨l1, l2, l3⟩ := writePass_layouts (vboSizeOf s.materials s.meshes)
    (iboSizeOf s.meshes) (s.meshes.zip (metasOf s.materials s.meshes 0))
    (fun _ => 0) (fun _ => 0) 0
  dsimp only
  refine ⟨by rw [l1, zip_length], rfl, ?_⟩
  intro i hi
  have hiz : i < (s.meshes.zip (metasOf s.materials s.meshes 0)).length := by
    rw [zip_length]
    exact hi
  obtain ⟨f1, f2, f3, f4, f5, f6⟩ := l3 i hiz
  rw [zip_pairs_getD s i hi] at f3 f4 f5
  have hmi : (metaAt s.materials (s.meshes.getD i dMesh)
      (iboSizeOf (s.meshes.take i))).hasIndices
      = meshHasIdx (s.meshes.getD i dMesh) := rfl
  rw [hmi] at f3
  refine ⟨by rw [f3]; exact meshHasIdx_iff _, ?_⟩
  intro hI
  have hIdx : meshHasIdx (s.meshes.getD i dMesh) = true := by rw [← f3]; exact hI
  have ho : (metaAt s.materials (s.meshes.getD i dMesh)
      (iboSizeOf (s.meshes.take i))).indicesOffset
      = some (iboSizeOf (s.meshes.take i)) := by
    unfold metaAt
    exact if_pos hIdx
  have hb : (metaAt s.materials (s.meshes.getD i dMesh)
      (iboSizeOf (s.meshes.take i))).indicesByteOffset
      = some (2 * iboSizeOf (s.meshes.take i)) := by
    unfold metaAt
    exact if_pos hIdx
  rw [f4, ho, f5, hb]
  rw [show ((((s.meshes.take i).filter (fun m2 => meshHasIdx m2)).map idxLen).sum)
      = iboSizeOf (s.meshes.take i) from by
    rw [sum_filter_idxLen]
    rfl]
  exact ⟨rfl, rfl⟩

/-- C6 witness: the concrete two-mesh scene has the claimed index layout. -/
theorem claim_C6_witness :
    ∃ r, initBuffers shipWit = .ok r ∧
      r.layouts.length = shipWit.meshes.length ∧
      r.iboSize = (shipWit.meshes.map idxLen).sum ∧
      ∀ i, i < shipWit.meshes.length →
        ((r.layouts.getD i dLayout).hasIndices = true ↔
          ∃ idxs, (shipWit.meshes.getD i dMesh).indices = some idxs ∧ idxs ≠ []) ∧
        ((r.layouts.getD i dLayout).hasIndices = true →
          (r.layouts.getD i dLayout).indicesOffset
            = some ((((shipWit.meshes.take i).filter
                (fun m2 => meshHasIdx m2)).map idxLen).sum) ∧
          (r.layouts.getD i dLayout).indicesByteOffset
            = some (2 * ((((shipWit.meshes.take i).filter
                (fun m2 => meshHasIdx m2)).map idxLen).sum))) :=
  claim_C6 shipWit (by decide)

/-- C8 counterexample: a scene whose single mesh has three position
elements and an empty normal array (a count mismatch) is nonetheless
initialized without any error. -/
theorem claim_C8_cex :
    (shipCex8.meshes.getD 0 dMesh).vertexPositions = some [1, 2, 3] ∧
    (shipCex8.meshes.getD 0 dMesh).vertexNormals = some [] ∧
    ∃ r, initBuffers shipCex8 = .ok r :=
  ⟨rfl, rfl, ⟨_, initBuffers_eq shipCex8 (by decide)⟩⟩

/-- C8 amended: a missing vertexPositions or vertexNormals array makes
_initBuffers raise the TypeError in the size pass, before any allocation
(no buffers result); but a position/normal count mismatch is not detected:
the size pass accepts every scene whose required arrays are present and
whose material references resolve, and initialization completes normally. -/
theorem claim_C8_amended :
    (∀ s : Scene, (∃ m ∈ s.meshes, m.vertexPositions = none ∨ m.vertexNormals = none) →
      ∃ e, initBuffers s = .error e) ∧
    (∀ s : Scene, ScenePresent s → ∃ r, initBuffers s = .ok r) := by
  constructor
  · intro s hbad
    obtain ⟨e, he⟩ := sizePass_error s.materials s.meshes 0 0 hbad
    refine ⟨e, ?_⟩
    unfold initBuffers
    rw [he]
  · intro s h
    exact ⟨_, initBuffers_eq s h⟩

/-- C8 witness: a scene whose mesh is missing vertexNormals errors out. -/
theorem claim_C8_witness : ∃ e, initBuffers shipMissing8 = .error e :=
  claim_C8_amended.1 shipMissing8
    ⟨⟨some [1, 2, 3], none, none, none, 0⟩, by simp [shipMissing8], Or.inr rfl⟩

/-- C1: for a well-formed scene the write pass emits exactly
stride times vertex-count elements for each mesh, the per-mesh element
counts sum to the size-pass vertex-buffer size, the final write cursor
equals that size, and every write lies strictly inside the pre-computed
capacity. -/
theorem claim_C1 (s : Scene) (h : SceneWF s) :
    ∃ r, initBuffers s = .ok r ∧
      r.vboEvents.length = s.meshes.length ∧
      r.layouts.length = s.meshes.length ∧
      (∀ i, i < s.meshes.length →
        ((r.vboEvents.getD i []).map Prod.snd).sum
          = (r.layouts.getD i dLayout).stride * vertCount (s.meshes.getD i dMesh)) ∧
      (r.vboEvents.map (fun ev => (ev.map Prod.snd).sum)).sum = r.vboSize ∧
      r.finalWriteIdx = r.vboSize ∧
      (∀ ev ∈ r.vboEvents, ∀ e ∈ ev, e.1 < r.vboSize ∧ e.1 + e.2 ≤ r.vboSize) := by
  have hpres : ScenePresent s := fun m hm => (h m hm).1
  refine ⟨_, initBuffers_eq s hpres, ?_⟩
  obtain ⟨w1, w2, w3, w4, w6, w5⟩ := writePass_spec s.materials
    (vboSizeOf s.materials s.meshes) (iboSizeOf s.meshes)
    (s.meshes.zip (metasOf s.materials s.meshes 0))
    (fun _ => 0) (fun _ => 0) 0 (zip_pairs_hyp s h)
  dsimp only
  have hmapsum : ((s.meshes.zip (metasOf s.materials s.meshes 0)).map
      (fun p => vboContrib s.materials p.1)).sum = vboSizeOf s.materials s.meshes := by
    rw [zip_map_fst]
    rfl
  refine ⟨by rw [w3, zip_length], by rw [w2, zip_length], ?_, ?_, ?_, ?_⟩
  · intro i hi
    have hiz : i < (s.meshes.zip (metasOf s.materials s.meshes 0)).length := by
      rw [zip_length]
      exact hi
    obtain ⟨hlay, hsum, _, _⟩ := w5 i hiz
    rw [hsum, hlay, zip_pairs_getD s i hi]
    have hstr : (metaAt s.materials (s.meshes.getD i dMesh)
        (iboSizeOf (s.meshes.take i))).stride
        = meshStride s.materials (s.meshes.getD i dMesh) := rfl
    rw [hstr]
    exact vboContrib_stride s.materials (s.meshes.getD i dMesh)
      (h _ (meshes_getD_mem s i hi))
  · rw [w6, hmapsum]
  · rw [w1, hmapsum]
    exact Nat.zero_add _
  · intro ev hev e he
    obtain ⟨j, hj, hget⟩ := List.mem_iff_getElem.mp hev
    have hjm : j < s.meshes.length := by
      rw [w3, zip_length] at hj
      omega
    have hjz : j < (s.meshes.zip (metasOf s.materials s.meshes 0)).length := by
      rw [zip_length]
      exact hjm
    have hevj : (writePass (vboSizeOf s.materials s.meshes) (iboSizeOf s.meshes)
        (s.meshes.zip (metasOf s.materials s.meshes 0))
        (fun _ => 0) (fun _ => 0) 0).vboEvents.getD j [] = ev := by
      rw [List.getD_eq_getElem _ _ hj]
      exact hget
    obtain ⟨_, _, hbnd, _⟩ := w5 j hjz
    rw [hevj] at hbnd
    obtain ⟨hb1, hb2, hb3⟩ := hbnd e he
    have htakesum : (((s.meshes.zip (metasOf s.materials s.meshes 0)).take j).map
        (fun p => vboContrib s.materials p.1)).sum
        = ((s.meshes.take j).map (vboContrib s.materials)).sum := by
      rw [zip_take_map_fst]
    have hfst : ((s.meshes.zip (metasOf s.materials s.meshes 0)).getD j
        (dMesh, default)).1 = s.meshes.getD j dMesh := by
      rw [zip_pairs_getD s j hjm]
    rw [htakesum, hfst] at hb3
    have hle := sum_take_mesh (vboContrib s.materials) s.meshes j hjm
    have hcap : e.1 + e.2 ≤ vboSizeOf s.materials s.meshes := by
      unfold vboSizeOf
      omega
    exact ⟨by omega, hcap⟩

/-- C1 witness: the concrete two-mesh scene satisfies the C1 packing
invariants. -/
theorem claim_C1_witness :
    ∃ r, initBuffers shipWit = .ok r ∧
      r.vboEvents.length = shipWit.meshes.length ∧
      r.layouts.length = shipWit.meshes.length ∧
      (∀ i, i < shipWit.meshes.length →
        ((r.vboEvents.getD i []).map Prod.snd).sum
          = (r.layouts.getD i dLayout).stride * vertCount (shipWit.meshes.getD i dMesh)) ∧
      (r.vboEvents.map (fun ev => (ev.map Prod.snd).sum)).sum = r.vboSize ∧
      r.finalWriteIdx = r.vboSize ∧
      (∀ ev ∈ r.vboEvents, ∀ e ∈ ev, e.1 < r.vboSize ∧ e.1 + e.2 ≤ r.vboSize) :=
  claim_C1 shipWit (by decide)

/-- C3: for a well-formed scene, reading the packed vertex buffer back at
the recorded offsets reproduces every vertex's position triple, normal
triple and (when textured) texcoord pair, and the record layout is
positions, then normals, then texcoords. -/
theorem claim_C3 (s : Scene) (h : SceneWF s) :
    ∃ r, initBuffers s = .ok r ∧
      ∀ i, i < s.meshes.length →
        (r.layouts.getD i dLayout).normalsOffset
          = (r.layouts.getD i dLayout).positionsOffset + 3 ∧
        ((r.layouts.getD i dLayout).hasTexture = true →
          (r.layouts.getD i dLayout).texCoordsOffset
            = some ((r.layouts.getD i dLayout).positionsOffset + 6)) ∧
        ∀ k, k < vertCount (s.meshes.getD i dMesh) →
          (∀ t, t < 3 → r.vbo ((r.layouts.getD i dLayout).positionsOffset
              + k * (r.layouts.getD i dLayout).stride + t)
            = ((s.meshes.getD i dMesh).vertexPositions.getD []).getD (3 * k + t) 0) ∧
          (∀ t, t < 3 → r.vbo ((r.layouts.getD i dLayout).normalsOffset
              + k * (r.layouts.getD i dLayout).stride + t)
            = ((s.meshes.getD i dMesh).vertexNormals.getD []).getD (3 * k + t) 0) ∧
          ((r.layouts.getD i dLayout).hasTexture = true → ∀ t, t < 2 →
            r.vbo ((r.layouts.getD i dLayout).texCoordsOffset.getD 0
                + k * (r.layouts.getD i dLayout).stride + t)
            = (((s.meshes.getD i dMesh).vertexTexCoordinates.getD []).headD
                []).getD (2 * k + t) 0) := by
  have hpres : ScenePresent s := fun m hm => (h m hm).1
  refine ⟨_, initBuffers_eq s hpres, ?_⟩
  obtain ⟨w1, w2, w3, w4, w6, w5⟩ := writePass_spec s.materials
    (vboSizeOf s.materials s.meshes) (iboSizeOf s.meshes)
    (s.meshes.zip (metasOf s.materials s.meshes 0))
    (fun _ => 0) (fun _ => 0) 0 (zip_pairs_hyp s h)
  dsimp only
  intro i hi
  have hiz : i < (s.meshes.zip (metasOf s.materials s.meshes 0)).length := by
    rw [zip_length]
    exact hi
  obtain ⟨hlay, _, _, hrt⟩ := w5 i hiz
  rw [zip_pairs_getD s i hi] at hlay hrt
  have hcap : 0 + ((s.meshes.zip (metasOf s.materials s.meshes 0)).map
      (fun p => vboContrib s.materials p.1)).sum ≤ vboSizeOf s.materials s.meshes := by
    rw [zip_map_fst]
    unfold vboSizeOf
    omega
  have hrt2 := hrt hcap
  rw [hlay]
  set woff := 0 + (((s.meshes.zip (metasOf s.materials s.meshes 0)).take i).map
    (fun p => vboContrib s.materials p.1)).sum with hwoff
  refine ⟨Nat.add_comm 3 woff, ?_, ?_⟩
  · intro hx
    dsimp only
    rw [if_pos hx]
    rw [Nat.add_comm 6 woff]
  · intro k hk
    obtain ⟨p1, p2, p3⟩ := hrt2 k hk
    have hstr : (metaAt s.materials (s.meshes.getD i dMesh)
        (iboSizeOf (s.meshes.take i))).stride
        = meshStride s.materials (s.meshes.getD i dMesh) := rfl
    refine ⟨?_, ?_, ?_⟩
    · intro t htl
      exact p1 t htl
    · intro t htl
      dsimp only
      rw [show 3 + woff + k * (metaAt s.materials (s.meshes.getD i dMesh)
          (iboSizeOf (s.meshes.take i))).stride + t
        = woff + k * (metaAt s.materials (s.meshes.getD i dMesh)
          (iboSizeOf (s.meshes.take i))).stride + 3 + t by ring]
      exact p2 t htl
    · intro hx t htl
      dsimp only
      rw [if_pos hx]
      rw [show (some (6 + woff)).getD 0 + k * (metaAt s.materials
          (s.meshes.getD i dMesh) (iboSizeOf (s.meshes.take i))).stride + t
        = woff + k * (metaAt s.materials (s.meshes.getD i dMesh)
          (iboSizeOf (s.meshes.take i))).stride + 6 + t by
        rw [Option.getD_some]
        ring]
      exact p3 hx t htl

/-- C3 witness: the concrete two-mesh scene round-trips its vertex data. -/
theorem claim_C3_witness :
    ∃ r, initBuffers shipWit = .ok r ∧
      ∀ i, i < shipWit.meshes.length →
        (r.layouts.getD i dLayout).normalsOffset
          = (r.layouts.getD i dLayout).positionsOffset + 3 ∧
        ((r.layouts.getD i dLayout).hasTexture = true →
          (r.layouts.getD i dLayout).texCoordsOffset
            = some ((r.layouts.getD i dLayout).positionsOffset + 6)) ∧
        ∀ k, k < vertCount (shipWit.meshes.getD i dMesh) →
          (∀ t, t < 3 → r.vbo ((r.layouts.getD i dLayout).positionsOffset
              + k * (r.layouts.getD i dLayout).stride + t)
            = ((shipWit.meshes.getD i dMesh).vertexPositions.getD []).getD (3 * k + t) 0) ∧
          (∀ t, t < 3 → r.vbo ((r.layouts.getD i dLayout).normalsOffset
              + k * (r.layouts.getD i dLayout).stride + t)
            = ((shipWit.meshes.getD i dMesh).vertexNormals.getD []).getD (3 * k + t) 0) ∧
          ((r.layouts.getD i dLayout).hasTexture = true → ∀ t, t < 2 →
            r.vbo ((r.layouts.getD i dLayout).texCoordsOffset.getD 0
                + k * (r.layouts.getD i dLayout).stride + t)
            = (((shipWit.meshes.getD i dMesh).vertexTexCoordinates.getD []).headD
                []).getD (2 * k + t) 0) :=
  claim_C3 shipWit (by decide)

lemma mat4inverse_eq (M : Mat4) (h : M.det ≠ 0) : mat4inverse M = some M⁻¹ := by
  unfold mat4inverse
  rw [if_neg h]
  rw [Matrix.inv_def, Ring.inverse_eq_inv]

lemma normalMatrixOf_eq (M : Mat4) (h : M.det ≠ 0) :
    normalMatrixOf M = Matrix.transpose M⁻¹ := by
  unfold normalMatrixOf
  rw [mat4inverse_eq M h]
  rfl

lemma scaleMat_det (q : ℚ) : (scaleMat q).det = q ^ 3 := by
  unfold scaleMat
  rw [Matrix.det_diagonal]
  rw [Fin.prod_univ_four]
  simp
  ring

lemma scaleMat_mul_inv (q : ℚ) (hq : q ≠ 0) :
    scaleMat q * scaleMat q⁻¹ = 1 := by
  unfold scaleMat
  have harg : (fun i => (![q, q, q, 1] : Fin 4 → ℚ) i * (![q⁻¹, q⁻¹, q⁻¹, 1] : Fin 4 → ℚ) i) = fun _ : Fin 4 => (1 : ℚ) := by
    funext i
    fin_cases i <;> simp [hq]
  rw [Matrix.diagonal_mul_diagonal, harg, Matrix.diagonal_one]

/-- C5: for every node with an invertible model matrix, the stored
normalMatrix is the transpose of the inverse of the model matrix; the
identity model matrix yields the identity normal matrix, and a uniform
scale by q yields a uniform scale by the reciprocal of q. -/
theorem claim_C5 (nodes : List Node) (i : ℕ) (hi : i < nodes.length)
    (hdet : (nodes.getD i ⟨1, []⟩).modelMatrix.det ≠ 0) :
    (initNormalMatrices nodes).getD i 0
      = Matrix.transpose ((nodes.getD i ⟨1, []⟩).modelMatrix⁻¹) ∧
    normalMatrixOf 1 = 1 ∧
    (∀ q : ℚ, q ≠ 0 → normalMatrixOf (scaleMat q) = scaleMat q⁻¹) := by
  refine ⟨?_, ?_, ?_⟩
  · have hm : (initNormalMatrices nodes).getD i 0
        = normalMatrixOf (nodes.getD i ⟨1, []⟩).modelMatrix := by
      unfold initNormalMatrices
      rw [List.getD_eq_getElem _ _ (show i < (nodes.map
        (fun nd => normalMatrixOf nd.modelMatrix)).length by simpa using hi)]
      rw [List.getElem_map]
      rw [show nodes[i] = nodes.getD i ⟨1, []⟩ from
        (List.getD_eq_getElem nodes ⟨1, []⟩ hi).symm]
    rw [hm, normalMatrixOf_eq _ hdet]
  · have h1 : (1 : Mat4).det ≠ 0 := by
      rw [Matrix.det_one]
      norm_num
    rw [normalMatrixOf_eq 1 h1, inv_one, Matrix.transpose_one]
  · intro q hq
    have hd : (scaleMat q).det ≠ 0 := by
      rw [scaleMat_det]
      exact pow_ne_zero 3 hq
    rw [normalMatrixOf_eq _ hd]
    rw [Matrix.inv_eq_right_inv (scaleMat_mul_inv q hq)]
    unfold scaleMat
    exact Matrix.diagonal_transpose _

/-- C5 witness: a single identity node gets the identity normal matrix. -/
theorem claim_C5_witness :
    (initNormalMatrices [⟨(1 : Mat4), []⟩]).getD 0 0
      = Matrix.transpose ((([⟨(1 : Mat4), []⟩] : List Node).getD 0
          ⟨1, []⟩).modelMatrix⁻¹) ∧
    normalMatrixOf 1 = 1 ∧
    (∀ q : ℚ, q ≠ 0 → normalMatrixOf (scaleMat q) = scaleMat q⁻¹) :=
  claim_C5 [⟨(1 : Mat4), []⟩] 0 (by simp) (by simp [Matrix.det_one])

/-- C9 (behavior of the code at the failing input): on a node whose model
matrix is the singular zero matrix, _initNormalMatrices raises no error at
all; gl-matrix inverse returns null, the zero-initialized destination is
left untouched, and the stored normalMatrix is silently the zero matrix. -/
theorem claim_C9 :
    initNormalMatrices [⟨(0 : Mat4), []⟩] = [(0 : Mat4)] ∧
    mat4inverse (0 : Mat4) = none := by
  have hd : (0 : Mat4).det = 0 := Matrix.det_zero ⟨0⟩
  constructor
  · unfold initNormalMatrices normalMatrixOf mat4inverse
    rw [List.map_cons, List.map_nil]
    rw [hd]
    simp
  · unfold mat4inverse
    rw [hd]
    simp

lemma updateExtents_min (v p : Vec3) (c : Fin 3) :
    updateExtents (fun a b => decide (a < b)) v p c = min (v c) (p c) := by
  unfold updateExtents
  by_cases h : v c < p c
  · rw [if_pos (by simpa using h)]
    exact (min_eq_left (le_of_lt h)).symm
  · rw [if_neg (by simpa using h)]
    exact (min_eq_right (le_of_not_lt h)).symm

lemma updateExtents_max (v p : Vec3) (c : Fin 3) :
    updateExtents (fun a b => decide (a > b)) v p c = max (v c) (p c) := by
  unfold updateExtents
  by_cases h : v c > p c
  · rw [if_pos (by simpa using h)]
    exact (max_eq_left (le_of_lt h)).symm
  · rw [if_neg (by simpa using h)]
    exact (max_eq_right (le_of_not_lt h)).symm

lemma scanVerts_eq_aux (M : Mat4) : ∀ (n : ℕ) (verts : List ℚ), verts.length ≤ n →
    ∀ mn mx, scanVerts M verts mn mx
      = ((meshPoints verts).map (transformPoint M)).foldl extStep (mn, mx) := by
  intro n
  induction n with
  | zero =>
    intro verts hlen mn mx
    have h0 : verts = [] := List.eq_nil_of_length_eq_zero (by omega)
    subst h0
    simp [scanVerts, meshPoints]
  | succ n ih =>
    intro verts hlen mn mx
    match verts with
    | [] => rfl
    | [x] => rfl
    | [x, y] => rfl
    | x :: y :: z :: rest =>
      rw [scanVerts, meshPoints, List.map_cons, List.foldl_cons]
      have hd : rest.length ≤ n := by
        simp only [List.length_cons] at hlen
        omega
      exact ih rest hd _ _

lemma scanVerts_eq (M : Mat4) (verts : List ℚ) (mn mx : Vec3) :
    scanVerts M verts mn mx
      = ((meshPoints verts).map (transformPoint M)).foldl extStep (mn, mx) :=
  scanVerts_eq_aux M verts.length verts le_rfl mn mx

lemma foldl_extStep_fst (pts : List Vec3) : ∀ (mn mx : Vec3) (c : Fin 3),
    (pts.foldl extStep (mn, mx)).1 c = (pts.map (fun p => p c)).foldl min (mn c) := by
  induction pts with
  | nil =>
    intro mn mx c
    simp
  | cons p pts ih =>
    intro mn mx c
    rw [List.foldl_cons, List.map_cons, List.foldl_cons]
    rw [show extStep (mn, mx) p
      = (updateExtents (fun a b => decide (a < b)) mn p,
         updateExtents (fun a b => decide (a > b)) mx p) from rfl]
    rw [ih]
    rw [updateExtents_min]

lemma foldl_extStep_snd (pts : List Vec3) : ∀ (mn mx : Vec3) (c : Fin 3),
    (pts.foldl extStep (mn, mx)).2 c = (pts.map (fun p => p c)).foldl max (mx c) := by
  induction pts with
  | nil =>
    intro mn mx c
    simp
  | cons p pts ih =>
    intro mn mx c
    rw [List.foldl_cons, List.map_cons, List.foldl_cons]
    rw [show extStep (mn, mx) p
      = (updateExtents (fun a b => decide (a < b)) mn p,
         updateExtents (fun a b => decide (a > b)) mx p) from rfl]
    rw [ih]
    rw [updateExtents_max]

lemma scanMeshIdx_ok (meshes : List Mesh) (M : Mat4) :
    ∀ (mis : List ℕ) (mn mx : Vec3) (p : Vec3 × Vec3),
    scanMeshIdx meshes M mis mn mx = .ok p →
    p = (mis.flatMap (fun mi =>
        (meshPoints ((meshes.getD mi dMesh).vertexPositions.getD [])).map
          (transformPoint M))).foldl extStep (mn, mx) := by
  intro mis
  induction mis with
  | nil =>
    intro mn mx p h
    rw [scanMeshIdx] at h
    rw [List.flatMap_nil, List.foldl_nil]
    exact (Except.ok.inj h).symm
  | cons mi rest ih =>
    intro mn mx p h
    rw [scanMeshIdx] at h
    cases hg : meshes.get? mi with
    | none =>
      rw [hg] at h
      exact absurd h (by simp)
    | some mesh =>
      rw [hg] at h
      dsimp only at h
      cases hv : mesh.vertexPositions with
      | none =>
        rw [hv] at h
        exact absurd h (by simp)
      | some verts =>
        rw [hv] at h
        dsimp only at h
        have hgd : meshes.getD mi dMesh = mesh := by
          rw [List.getD_eq_getElem?_getD, ← List.get?_eq_getElem?, hg]
          rfl
        rw [ih _ _ p h]
        rw [List.flatMap_cons, List.foldl_append]
        congr 1
        rw [hgd, hv]
        rw [show ((some verts).getD [] : List ℚ) = verts from rfl]
        rw [← scanVerts_eq M verts mn mx]

lemma scanNodes_ok (meshes : List Mesh) :
    ∀ (nodes : List Node) (mn mx : Vec3) (p : Vec3 × Vec3),
    scanNodes meshes nodes mn mx = .ok p →
    p = (nodes.flatMap (nodePoints meshes)).foldl extStep (mn, mx) := by
  intro nodes
  induction nodes with
  | nil =>
    intro mn mx p h
    rw [scanNodes] at h
    rw [List.flatMap_nil, List.foldl_nil]
    exact (Except.ok.inj h).symm
  | cons nd rest ih =>
    intro mn mx p h
    rw [scanNodes] at h
    cases hs : scanMeshIdx meshes nd.modelMatrix nd.meshIndices mn mx with
    | error e =>
      rw [hs] at h
      exact absurd h (by simp)
    | ok pr =>
      obtain ⟨mn2, mx2⟩ := pr
      rw [hs] at h
      dsimp only at h
      rw [ih _ _ p h]
      rw [List.flatMap_cons, List.foldl_append]
      congr 1
      exact scanMeshIdx_ok meshes nd.modelMatrix nd.meshIndices mn mx (mn2, mx2) hs

lemma computeExtents_ok (s : Scene) (e : Extents) (h : computeExtents s = .ok e) :
    (∀ c, e.min c = ((visitedPoints s).map (fun p => p c)).foldl min MAXV) ∧
    (∀ c, e.max c = ((visitedPoints s).map (fun p => p c)).foldl max (-MINV)) ∧
    (∀ c, e.center c = (e.min c + e.max c) * (1 / 2)) ∧
    e.diagonalSq = (e.max 0 - e.min 0) ^ 2 + (e.max 1 - e.min 1) ^ 2
      + (e.max 2 - e.min 2) ^ 2 := by
  unfold computeExtents at h
  cases hs : scanNodes s.meshes s.nodes (fun _ => MAXV) (fun _ => -MINV) with
  | error e2 =>
    rw [hs] at h
    exact absurd h (by simp)
  | ok pr =>
    obtain ⟨mn, mx⟩ := pr
    rw [hs] at h
    dsimp only at h
    have he := (Except.ok.inj h).symm
    subst he
    have hp := scanNodes_ok s.meshes s.nodes (fun _ => MAXV) (fun _ => -MINV) (mn, mx) hs
    refine ⟨?_, ?_, fun c => rfl, rfl⟩
    · intro c
      have h1 : mn = ((s.nodes.flatMap (nodePoints s.meshes)).foldl extStep
          (fun _ => MAXV, fun _ => -MINV)).1 := by rw [← hp]
      rw [show (⟨mn, mx, fun c => (mn c + mx c) * (1 / 2), (mx 0 - mn 0) ^ 2
          + (mx 1 - mn 1) ^ 2 + (mx 2 - mn 2) ^ 2⟩ : Extents).min = mn from rfl]
      rw [h1, foldl_extStep_fst]
      rfl
    · intro c
      have h2 : mx = ((s.nodes.flatMap (nodePoints s.meshes)).foldl extStep
          (fun _ => MAXV, fun _ => -MINV)).2 := by rw [← hp]
      rw [show (⟨mn, mx, fun c => (mn c + mx c) * (1 / 2), (mx 0 - mn 0) ^ 2
          + (mx 1 - mn 1) ^ 2 + (mx 2 - mn 2) ^ 2⟩ : Extents).max = mx from rfl]
      rw [h2, foldl_extStep_snd]
      rfl

lemma scanMeshIdx_append (meshes : List Mesh) (m : Mesh) (M : Mat4) :
    ∀ (mis : List ℕ) (mn mx : Vec3) (p : Vec3 × Vec3),
    scanMeshIdx meshes M mis mn mx = .ok p →
    scanMeshIdx (meshes ++ [m]) M mis mn mx = .ok p := by
  intro mis
  induction mis with
  | nil =>
    intro mn mx p h
    rw [scanMeshIdx] at h ⊢
    exact h
  | cons mi rest ih =>
    intro mn mx p h
    rw [scanMeshIdx] at h ⊢
    cases hg : meshes.get? mi with
    | none =>
      rw [hg] at h
      exact absurd h (by simp)
    | some mesh =>
      obtain ⟨hlt, _⟩ := List.get?_eq_some.mp hg
      rw [List.get?_append hlt, hg]
      rw [hg] at h
      dsimp only at h ⊢
      cases hv : mesh.vertexPositions with
      | none =>
        rw [hv] at h
        exact absurd h (by simp)
      | some verts =>
        revert h
        rw [hv]
        dsimp only
        intro h
        exact ih _ _ p h

lemma scanNodes_append (meshes : List Mesh) (m : Mesh) :
    ∀ (nodes : List Node) (mn mx : Vec3) (p : Vec3 × Vec3),
    scanNodes meshes nodes mn mx = .ok p →
    scanNodes (meshes ++ [m]) nodes mn mx = .ok p := by
  intro nodes
  induction nodes with
  | nil =>
    intro mn mx p h
    rw [scanNodes] at h ⊢
    exact h
  | cons nd rest ih =>
    intro mn mx p h
    rw [scanNodes] at h ⊢
    cases hs : scanMeshIdx meshes nd.modelMatrix nd.meshIndices mn mx with
    | error e =>
      rw [hs] at h
      exact absurd h (by simp)
    | ok pr =>
      obtain ⟨mn2, mx2⟩ := pr
      rw [hs] at h
      rw [scanMeshIdx_append meshes m nd.modelMatrix nd.meshIndices mn mx (mn2, mx2) hs]
      dsimp only at h ⊢
      exact ih _ _ p h

lemma scanMeshIdx_exists (meshes : List Mesh) (M : Mat4) :
    ∀ (mis : List ℕ) (mn mx : Vec3),
    (∀ mi ∈ mis,
      ((meshes.get? mi).bind (fun mesh => mesh.vertexPositions)).isSome = true) →
    ∃ p, scanMeshIdx meshes M mis mn mx = .ok p := by
  intro mis
  induction mis with
  | nil =>
    intro mn mx _
    exact ⟨_, rfl⟩
  | cons mi rest ih =>
    intro mn mx h
    have h0 := h mi (by simp)
    rw [scanMeshIdx]
    cases hg : meshes.get? mi with
    | none =>
      rw [hg] at h0
      simp at h0
    | some mesh =>
      rw [hg] at h0
      simp only [Option.some_bind] at h0
      obtain ⟨verts, hv⟩ := Option.isSome_iff_exists.mp h0
      dsimp only
      rw [hv]
      dsimp only
      exact ih _ _ (fun mi2 hm2 => h mi2 (by simp [hm2]))

lemma scanNodes_exists (meshes : List Mesh) :
    ∀ (nodes : List Node) (mn mx : Vec3),
    (∀ nd ∈ nodes, ∀ mi ∈ nd.meshIndices,
      ((meshes.get? mi).bind (fun mesh => mesh.vertexPositions)).isSome = true) →
    ∃ p, scanNodes meshes nodes mn mx = .ok p := by
  intro nodes
  induction nodes with
  | nil =>
    intro mn mx _
    exact ⟨_, rfl⟩
  | cons nd rest ih =>
    intro mn mx h
    rw [scanNodes]
    obtain ⟨pr, hpr⟩ := scanMeshIdx_exists meshes nd.modelMatrix nd.meshIndices mn mx
      (h nd (by simp))
    rw [hpr]
    obtain ⟨mn2, mx2⟩ := pr
    dsimp only
    exact ih _ _ (fun nd2 hn2 => h nd2 (by simp [hn2]))

lemma computeExtents_exists (s : Scene) (h : sceneRefsOk s = true) :
    ∃ e, computeExtents s = .ok e := by
  unfold sceneRefsOk at h
  simp only [List.all_eq_true, decide_eq_true_eq] at h
  obtain ⟨pr, hpr⟩ := scanNodes_exists s.meshes s.nodes (fun _ => MAXV)
    (fun _ => -MINV) h
  obtain ⟨mn, mx⟩ := pr
  unfold computeExtents
  rw [hpr]
  exact ⟨_, rfl⟩

lemma transformPoint_one (v : Vec3) : transformPoint 1 v = ![v 0, v 1, v 2] := by
  unfold transformPoint
  funext c
  fin_cases c <;> simp [Matrix.one_apply]

/-- C10: the extents are exactly the componentwise scan of the visited
points — the list that contains, for every node and every mesh index the
node lists (once per listing), that mesh's vertices transformed by that
node's model matrix — so a mesh referenced by no node has no effect:
appending it to the scene leaves the whole extents result unchanged. -/
theorem claim_C10 (s : Scene) (m : Mesh) (h : sceneRefsOk s = true) :
    ∃ e, computeExtents s = .ok e ∧
      (∀ c, e.min c = ((visitedPoints s).map (fun p => p c)).foldl min MAXV) ∧
      (∀ c, e.max c = ((visitedPoints s).map (fun p => p c)).foldl max (-MINV)) ∧
      computeExtents ⟨s.meshes ++ [m], s.materials, s.nodes⟩ = .ok e := by
  obtain ⟨e, he⟩ := computeExtents_exists s h
  obtain ⟨h1, h2, _, _⟩ := computeExtents_ok s e he
  refine ⟨e, he, h1, h2, ?_⟩
  unfold computeExtents at he ⊢
  cases hs : scanNodes s.meshes s.nodes (fun _ => MAXV) (fun _ => -MINV) with
  | error e2 =>
    rw [hs] at he
    exact absurd he (by simp)
  | ok pr =>
    obtain ⟨mn, mx⟩ := pr
    rw [hs] at he
    rw [show (⟨s.meshes ++ [m], s.materials, s.nodes⟩ : Scene).meshes
      = s.meshes ++ [m] from rfl]
    rw [show (⟨s.meshes ++ [m], s.materials, s.nodes⟩ : Scene).nodes
      = s.nodes from rfl]
    rw [scanNodes_append s.meshes m s.nodes _ _ (mn, mx) hs]
    exact he

/-- C10 witness: the triangle scene of the first extents example, extended
with an unreferenced mesh, keeps its whole extents result. -/
theorem claim_C10_witness :
    ∃ e, computeExtents shipEx1 = .ok e ∧
      (∀ c, e.min c = ((visitedPoints shipEx1).map (fun p => p c)).foldl min MAXV) ∧
      (∀ c, e.max c = ((visitedPoints shipEx1).map (fun p => p c)).foldl max (-MINV)) ∧
      computeExtents ⟨shipEx1.meshes ++ [⟨some [9, 9, 9], some [0, 0, 1], none, none, 0⟩],
        shipEx1.materials, shipEx1.nodes⟩ = .ok e :=
  claim_C10 shipEx1 ⟨some [9, 9, 9], some [0, 0, 1], none, none, 0⟩ (by rfl)

lemma transformPoint_trans5 (v : Vec3) :
    transformPoint (Matrix.of ![![1, 0, 0, 5], ![0, 1, 0, 0], ![0, 0, 1, 0],
      ![0, 0, 0, 1]]) v = ![v 0 + 5, v 1, v 2] := by
  unfold transformPoint
  funext c
  fin_cases c
  · show (1 : ℚ) * v 0 + 0 * v 1 + 0 * v 2 + 5 = v 0 + 5
    ring
  · show (0 : ℚ) * v 0 + 1 * v 1 + 0 * v 2 + 0 = v 1
    ring
  · show (0 : ℚ) * v 0 + 0 * v 1 + 1 * v 2 + 0 = v 2
    ring

lemma shipEx1_points : visitedPoints shipEx1 = [![0, 0, 0], ![2, 0, 0], ![0, 2, 0]] := by
  simp [visitedPoints, shipEx1, nodePoints, meshPoints, transformPoint_one]

lemma shipEx2_points : visitedPoints shipEx2 = [![5, 0, 0], ![7, 0, 0], ![5, 2, 0]] := by
  simp [visitedPoints, shipEx2, nodePoints, meshPoints, transformPoint_trans5]
  norm_num

lemma shipCex4_points : visitedPoints shipCex4 = [![-1, -1, -1]] := by
  simp [visitedPoints, shipCex4, nodePoints, meshPoints, transformPoint_one]

/-- C4 (behavior of the code at the failing input, and at the spec's two
examples): with a single all-negative vertex the scan's maximum stays at the
-Number.MIN_VALUE sentinel instead of the true per-axis maximum -1; the
spec's two concrete examples themselves do hold. -/
theorem claim_C4 :
    (∃ e, computeExtents shipCex4 = .ok e ∧ e.max 0 = -MINV ∧ (-MINV : ℚ) ≠ -1) ∧
    (∃ e, computeExtents shipEx1 = .ok e ∧
      (∀ c, e.min c = 0) ∧
      e.max 0 = 2 ∧ e.max 1 = 2 ∧ e.max 2 = 0 ∧
      e.center 0 = 1 ∧ e.center 1 = 1 ∧ e.center 2 = 0 ∧
      e.diagonalSq = 8 ∧ e.diagonal = Real.sqrt 8) ∧
    (∃ e, computeExtents shipEx2 = .ok e ∧
      e.min 0 = 5 ∧ e.min 1 = 0 ∧ e.min 2 = 0 ∧
      e.max 0 = 7 ∧ e.max 1 = 2 ∧ e.max 2 = 0) := by
  have hM0 : (0 : ℚ) ≤ MAXV := by norm_num [MAXV]
  have hM5 : (5 : ℚ) ≤ MAXV := by norm_num [MAXV]
  have hm0 : (-MINV : ℚ) ≤ 0 := by norm_num [MINV]
  have hm5 : (-MINV : ℚ) ≤ 5 := by norm_num [MINV]
  have hmneg : (-1 : ℚ) ≤ -MINV := by norm_num [MINV]
  refine ⟨?_, ?_, ?_⟩
  · obtain ⟨e, he⟩ := computeExtents_exists shipCex4 (by rfl)
    obtain ⟨hmin, hmax, hcen, hdsq⟩ := computeExtents_ok shipCex4 e he
    refine ⟨e, he, ?_, by norm_num [MINV]⟩
    rw [hmax 0, shipCex4_points]
    simp only [List.map_cons, List.map_nil, List.foldl_cons, List.foldl_nil,
      Matrix.cons_val_zero]
    exact max_eq_left hmneg
  · obtain ⟨e, he⟩ := computeExtents_exists shipEx1 (by rfl)
    obtain ⟨hmin, hmax, hcen, hdsq⟩ := computeExtents_ok shipEx1 e he
    have hmin0 : e.min 0 = 0 := by
      rw [hmin 0, shipEx1_points]
      simp only [List.map_cons, List.map_nil, List.foldl_cons, List.foldl_nil,
        Matrix.cons_val_zero]
      rw [min_eq_right hM0]
      norm_num
    have hmin1 : e.min 1 = 0 := by
      rw [hmin 1, shipEx1_points]
      simp only [List.map_cons, List.map_nil, List.foldl_cons, List.foldl_nil,
        Matrix.cons_val_one, Matrix.head_cons]
      rw [min_eq_right hM0]
      norm_num
    have hmin2 : e.min 2 = 0 := by
      rw [hmin 2, shipEx1_points]
      simp only [List.map_cons, List.map_nil, List.foldl_cons, List.foldl_nil,
        Matrix.cons_val_two, Matrix.tail_cons, Matrix.head_cons]
      rw [min_eq_right hM0]
      norm_num
    have hmax0 : e.max 0 = 2 := by
      rw [hmax 0, shipEx1_points]
      simp only [List.map_cons, List.map_nil, List.foldl_cons, List.foldl_nil,
        Matrix.cons_val_zero]
      rw [max_eq_right hm0]
      norm_num
    have hmax1 : e.max 1 = 2 := by
      rw [hmax 1, shipEx1_points]
      simp only [List.map_cons, List.map_nil, List.foldl_cons, List.foldl_nil,
        Matrix.cons_val_one, Matrix.head_cons]
      rw [max_eq_right hm0]
      norm_num
    have hmax2 : e.max 2 = 0 := by
      rw [hmax 2, shipEx1_points]
      simp only [List.map_cons, List.map_nil, List.foldl_cons, List.foldl_nil,
        Matrix.cons_val_two, Matrix.tail_cons, Matrix.head_cons]
      rw [max_eq_right hm0]
      norm_num
    have hdsq8 : e.diagonalSq = 8 := by
      rw [hdsq, hmin0, hmin1, hmin2, hmax0, hmax1, hmax2]
      norm_num
    refine ⟨e, he, ?_, hmax0, hmax1, hmax2, ?_, ?_, ?_, hdsq8, ?_⟩
    · intro c
      fin_cases c
      · exact hmin0
      · exact hmin1
      · exact hmin2
    · rw [hcen 0, hmin0, hmax0]; norm_num
    · rw [hcen 1, hmin1, hmax1]; norm_num
    · rw [hcen 2, hmin2, hmax2]; norm_num
    · unfold Extents.diagonal
      rw [hdsq8]
      norm_num
  · obtain ⟨e, he⟩ := computeExtents_exists shipEx2 (by rfl)
    obtain ⟨hmin, hmax, hcen, hdsq⟩ := computeExtents_ok shipEx2 e he
    refine ⟨e, he, ?_, ?_, ?_, ?_, ?_, ?_⟩
    · rw [hmin 0, shipEx2_points]
      simp only [List.map_cons, List.map_nil, List.foldl_cons, List.foldl_nil,
        Matrix.cons_val_zero]
      rw [min_eq_right hM5]
      norm_num
    · rw [hmin 1, shipEx2_points]
      simp only [List.map_cons, List.map_nil, List.foldl_cons, List.foldl_nil,
        Matrix.cons_val_one, Matrix.head_cons]
      rw [min_eq_right hM0]
      norm_num
    · rw [hmin 2, shipEx2_points]
      simp only [List.map_cons, List.map_nil, List.foldl_cons, List.foldl_nil,
        Matrix.cons_val_two, Matrix.tail_cons, Matrix.head_cons]
      rw [min_eq_right hM0]
      norm_num
    · rw [hmax 0, shipEx2_points]
      simp only [List.map_cons, List.map_nil, List.foldl_cons, List.foldl_nil,
        Matrix.cons_val_zero]
      rw [max_eq_right hm5]
      norm_num
    · rw [hmax 1, shipEx2_points]
      simp only [List.map_cons, List.map_nil, List.foldl_cons, List.foldl_nil,
        Matrix.cons_val_one, Matrix.head_cons]
      rw [max_eq_right hm0]
      norm_num
    · rw [hmax 2, shipEx2_points]
      simp only [List.map_cons, List.map_nil, List.foldl_cons, List.foldl_nil,
        Matrix.cons_val_two, Matrix.tail_cons, Matrix.head_cons]
      rw [max_eq_right hm0]
      norm_num

/-- C7 (behavior of the code on the empty scene): with zero nodes the
sentinels survive the scan — min is Number.MAX_VALUE on every axis, max is
-Number.MIN_VALUE on every axis, the center is their huge midpoint, and the
squared diagonal is a non-zero sentinel distance, not the zero extents the
spec asserts. -/
theorem claim_C7 :
    ∃ e, computeExtents ⟨[], [], []⟩ = .ok e ∧
      (∀ c, e.min c = MAXV) ∧ (∀ c, e.max c = -MINV) ∧
      (∀ c, e.center c = (MAXV + -MINV) * (1 / 2)) ∧
      e.diagonalSq = 3 * (MAXV + MINV) ^ 2 ∧
      MAXV ≠ 0 ∧ e.diagonalSq ≠ 0 := by
  obtain ⟨e, he⟩ := computeExtents_exists ⟨[], [], []⟩ (by rfl)
  obtain ⟨hmin, hmax, hcen, hdsq⟩ := computeExtents_ok _ e he
  have hpts : visitedPoints ⟨[], [], []⟩ = [] := by
    simp [visitedPoints]
  have hminc : ∀ c, e.min c = MAXV := by
    intro c
    rw [hmin c, hpts]
    simp
  have hmaxc : ∀ c, e.max c = -MINV := by
    intro c
    rw [hmax c, hpts]
    simp
  have hd3 : e.diagonalSq = 3 * (MAXV + MINV) ^ 2 := by
    rw [hdsq, hminc 0, hmaxc 0, hminc 1, hmaxc 1, hminc 2, hmaxc 2]
    ring
  refine ⟨e, he, hminc, hmaxc, ?_, hd3, by norm_num [MAXV], ?_⟩
  · intro c
    rw [hcen c, hminc c, hmaxc c]
  · rw [hd3]
    have hpos : (0 : ℚ) < MAXV + MINV := by norm_num [MAXV, MINV]
    positivity

end ShipGL
